import Mathlib

/-!
Verification of the statsd_exporter core (src/exporter.go) against its
natural-language specification.

Shallow embedding conventions:
* Go strings and byte slices become lists of byte values (`ByteStr`);
  all delimiter constants appear as their ASCII codes (58 = colon,
  124 = pipe, 64 = at sign, 35 = hash, 44 = comma, 10 = newline,
  95 = underscore, 46 = dot, 43 = plus, 45 = minus).
* Go float64 values become exact rationals; float64 rounding is not part
  of the model (strconv.ParseFloat is modelled by an exact decimal
  reader, omitting hex floats, inf/nan and digit-separating
  underscores).
* Go maps become association lists with first-match lookup.
* Wall-clock instants and durations (int64 nanoseconds) become `Int`.
* Functions that can panic in Go return `Option` (`none` = panic).
-/

abbrev ByteStr := List Nat

abbrev Labels := List (ByteStr × ByteStr)

/-- First-match association-list lookup (a Go map read). -/
def alookup {α β : Type} [DecidableEq α] : List (α × β) → α → Option β
  | [], _ => none
  | (k, v) :: rest, key => if k = key then some v else alookup rest key

/-- Association-list insert-or-replace (a Go map write). -/
def aupsert {α β : Type} [DecidableEq α] : List (α × β) → α → β → List (α × β)
  | [], key, v => [(key, v)]
  | (k, w) :: rest, key, v =>
    if k = key then (key, v) :: rest else (k, w) :: aupsert rest key v

/-- Association-list key removal (Go `delete`); removes every entry with
the key, which agrees with Go maps on duplicate-free lists. -/
def aerase {α β : Type} [DecidableEq α] (l : List (α × β)) (key : α) : List (α × β) :=
  l.filter (fun kv => kv.1 ≠ key)

/-- `strings.Split(s, sep)` for a one-byte separator. -/
def splitOnByte (b : Nat) : ByteStr → List ByteStr
  | [] => [[]]
  | c :: rest =>
    match splitOnByte b rest with
    | [] => [[]]
    | h :: t => if c = b then [] :: h :: t else (c :: h) :: t

/-- `strings.SplitN(s, sep, 2)` for a one-byte separator. -/
def splitN2 (b : Nat) : ByteStr → List ByteStr
  | [] => [[]]
  | c :: rest =>
    if c = b then [[], rest] else
      match splitN2 b rest with
      | [] => [[c]]
      | h :: t => (c :: h) :: t

/-- Does `s` start with `pat`? -/
def startsWithSeq : ByteStr → ByteStr → Bool
  | _, [] => true
  | [], _ :: _ => false
  | c :: s, p :: pat => c = p && startsWithSeq s pat

/-- `strings.Contains(s, pat)` (contiguous occurrence). -/
def containsSeq : ByteStr → ByteStr → Bool
  | [], pat => pat.isEmpty
  | c :: s, pat => startsWithSeq (c :: s) pat || containsSeq s pat

/-- Join byte strings with a one-byte separator (inverse of `splitOnByte`
on separator-free parts). -/
def joinBy (b : Nat) : List ByteStr → ByteStr
  | [] => []
  | [x] => x
  | x :: y :: rest => x ++ b :: joinBy b (y :: rest)

def isDigitByte (b : Nat) : Bool := 48 ≤ b && b ≤ 57

/-- Longest digit run at the front, and the remainder. -/
def takeDigits : ByteStr → ByteStr × ByteStr
  | [] => ([], [])
  | b :: rest =>
    if isDigitByte b then
      let (d, r) := takeDigits rest
      (b :: d, r)
    else ([], b :: rest)

def natOfDigits (ds : ByteStr) : Nat :=
  ds.foldl (fun acc b => acc * 10 + (b - 48)) 0

/-- Unsigned part of `strconv.ParseFloat`, as an exact rational:
digits with optional dot and optional decimal exponent. -/
def parseFloatCore (s : ByteStr) : Option ℚ :=
  let (ip, r1) := takeDigits s
  let (fp, r2) :=
    match r1 with
    | 46 :: r => takeDigits r
    | _ => ([], r1)
  if ip = [] ∧ fp = [] then none
  else
    let mant : ℚ := (natOfDigits ip : ℚ) + (natOfDigits fp : ℚ) / ((10 : ℚ) ^ fp.length)
    match r2 with
    | [] => some mant
    | e :: r3 =>
      if e = 101 ∨ e = 69 then
        let (esign, r4) :=
          match r3 with
          | 43 :: r => (true, r)
          | 45 :: r => (false, r)
          | _ => (true, r3)
        let (ed, r5) := takeDigits r4
        if ed = [] ∨ r5 ≠ [] then none
        else some (if esign then mant * (10 : ℚ) ^ natOfDigits ed
                   else mant / (10 : ℚ) ^ natOfDigits ed)
      else none

/-- `strconv.ParseFloat(s, 64)` over exact rationals (decimal forms). -/
def parseFloat? (s : ByteStr) : Option ℚ :=
  match s with
  | 43 :: r => parseFloatCore r
  | 45 :: r => (parseFloatCore r).map Neg.neg
  | r => parseFloatCore r

/-- Iterations performed by `for i := 0; i < int(q); i++` in Go: the
value of `q` truncated toward zero, clipped at zero. -/
def truncCount (q : ℚ) : Nat := q.num.toNat / q.den

/-- Bytes legal in a Prometheus metric name: `[A-Za-z0-9_]`. -/
def isLegalByte (b : Nat) : Bool :=
  (97 ≤ b && b ≤ 122) || (65 ≤ b && b ≤ 90) || (48 ≤ b && b ≤ 57) || b = 95

/-- UTF-8 continuation byte. -/
def isCont (b : Nat) : Bool := 128 ≤ b && b ≤ 191

/-- Acceptable second byte for lead byte `b` (Go unicode/utf8 accept
ranges, which exclude overlong encodings and surrogates). -/
def leadRange (b c : Nat) : Bool :=
  if b = 224 then 160 ≤ c && c ≤ 191
  else if b = 237 then 128 ≤ c && c ≤ 159
  else if b = 240 then 144 ≤ c && c ≤ 191
  else if b = 244 then 128 ≤ c && c ≤ 143
  else isCont c

/-- How many bytes beyond the lead byte `b` the next decoded rune
consumes (Go utf8.DecodeRune: 0 for ASCII and for every invalid
sequence, which decodes as a RuneError of width 1). -/
def runeStep (b : Nat) (rest : ByteStr) : Nat :=
  if b < 128 then 0
  else if 194 ≤ b && b ≤ 223 then
    match rest with
    | c :: _ => if isCont c then 1 else 0
    | [] => 0
  else if 224 ≤ b && b ≤ 239 then
    match rest with
    | c :: d :: _ => if leadRange b c && isCont d then 2 else 0
    | _ => 0
  else if 240 ≤ b && b ≤ 244 then
    match rest with
    | c :: d :: e :: _ => if leadRange b c && isCont d && isCont e then 3 else 0
    | _ => 0
  else 0

/-- The replacement pass of `illegalCharsRE.ReplaceAllString(s, "_")`:
Go regexp matches rune by rune (each invalid byte decoding as one
RuneError of width 1), so every rune outside `[A-Za-z0-9_]` becomes a
single underscore. -/
def replaceRunes : ByteStr → ByteStr
  | [] => []
  | b :: rest =>
    (if b < 128 && isLegalByte b then b else 95) :: replaceRunes (rest.drop (runeStep b rest))
termination_by s => s.length
decreasing_by simp [List.length_drop]; omega

/-- `utf8.ValidString` (Go unicode/utf8). -/
def utf8Valid : ByteStr → Bool
  | [] => true
  | b :: rest =>
    if b < 128 then utf8Valid rest
    else if 194 ≤ b && b ≤ 223 then
      match rest with
      | c :: r2 => isCont c && utf8Valid r2
      | [] => false
    else if 224 ≤ b && b ≤ 239 then
      match rest with
      | c :: d :: r3 => leadRange b c && isCont d && utf8Valid r3
      | _ => false
    else if 240 ≤ b && b ≤ 244 then
      match rest with
      | c :: d :: e :: r4 => leadRange b c && isCont d && isCont e && utf8Valid r4
      | _ => false
    else false

/-- `escapeMetricName` from src/exporter.go: prepend an underscore when
the first byte is an ASCII digit, then replace every illegal rune with
an underscore.  Indexing `metricName[0]` panics on the empty string,
hence `Option`. -/
def escapeMetricName (metricName : ByteStr) : Option ByteStr :=
  match metricName with
  | [] => none
  | b :: rest =>
    let m1 := if 48 ≤ b && b ≤ 57 then 95 :: b :: rest else b :: rest
    some (replaceRunes m1)

/-- The closed set of event kinds produced by `buildEvent`
(CounterEvent, GaugeEvent, TimerEvent). -/
inductive Event where
  | counter (metricName : ByteStr) (value : ℚ) (labels : Labels)
  | gauge (metricName : ByteStr) (value : ℚ) (relative : Bool) (labels : Labels)
  | timer (metricName : ByteStr) (value : ℚ) (labels : Labels)
deriving DecidableEq

def strC : ByteStr := [99]
def strG : ByteStr := [103]
def strMs : ByteStr := [109, 115]
def strH : ByteStr := [104]
def strS : ByteStr := [115]

/-- `buildEvent` from src/exporter.go; `none` for sets and unknown stat
types (the Go function returns an error there). -/
def buildEvent (statType metric : ByteStr) (value : ℚ) (relative : Bool)
    (labels : Labels) : Option Event :=
  if statType = strC then some (.counter metric value labels)
  else if statType = strG then some (.gauge metric value relative labels)
  else if statType = strMs ∨ statType = strH then some (.timer metric value labels)
  else none

/-- `strings.TrimPrefix(t, "#")`. -/
def trimHash : ByteStr → ByteStr
  | 35 :: r => r
  | s => s

/-- One DogStatsD tag: skip tags lacking a colon or with empty value
(counted as tagErrors, which we do not track); otherwise store under the
escaped key.  `escapeMetricName` panics on an empty key. -/
def parseTag (labels : Labels) (t : ByteStr) : Option Labels :=
  let t' := trimHash t
  let kv := splitN2 58 t'
  if kv.length < 2 ∨ ((kv.drop 1).headD []) = [] then some labels
  else
    match escapeMetricName (kv.headD []) with
    | none => none
    | some k => some (aupsert labels k ((kv.drop 1).headD []))

def parseTagList (labels : Labels) : List ByteStr → Option Labels
  | [] => some labels
  | t :: ts =>
    match parseTag labels t with
    | none => none
    | some l => parseTagList l ts

/-- `parseDogStatsDTagsToLabels` from src/exporter.go. -/
def parseDogStatsDTagsToLabels (component : ByteStr) : Option Labels :=
  parseTagList [] (splitOnByte 44 component)

/-- Per-sample mutable state of the modifier loop in `lineToEvents`:
the (possibly rescaled) value, the event multiplicity, the DogStatsD
labels, and the sampleErrors increments issued so far. -/
structure SampleState where
  value : ℚ
  multiplyEvents : Nat
  labels : Labels
  errs : List String
deriving DecidableEq

/-- One iteration of the modifier loop (`switch component[0]`). -/
def applyComponent (statType : ByteStr) (acc : SampleState) (comp : ByteStr) :
    Option SampleState :=
  match comp with
  | [] => some acc
  | b :: rest =>
    if b = 64 then
      if statType ≠ strC ∧ statType ≠ strMs then
        some { acc with errs := acc.errs ++ ["illegal_sample_factor"] }
      else
        let fe : ℚ × List String :=
          match parseFloat? rest with
          | some f => (f, acc.errs)
          | none => (0, acc.errs ++ ["invalid_sample_factor"])
        let f := if fe.1 = 0 then 1 else fe.1
        if statType = strC then
          some { acc with value := acc.value / f, errs := fe.2 }
        else
          some { acc with multiplyEvents := truncCount (1 / f), errs := fe.2 }
    else if b = 35 then
      match parseDogStatsDTagsToLabels comp with
      | none => none
      | some ls => some { acc with labels := ls }
    else
      some { acc with errs := acc.errs ++ ["invalid_sample_factor"] }

def applyComponents (statType : ByteStr) (acc : SampleState) :
    List ByteStr → Option SampleState
  | [] => some acc
  | c :: cs =>
    match applyComponent statType acc c with
    | none => none
    | some acc' => applyComponents statType acc' cs

/-- Whether `valueStr` starts with `+` or `-` (a relative gauge update). -/
def isRelative (valueStr : ByteStr) : Bool :=
  match valueStr with
  | 43 :: _ => true
  | 45 :: _ => true
  | _ => false

/-- The event-building loop at the end of a sample: `multiplyEvents`
iterations, each building the same event (or counting one
`illegal_event` each time on a bad stat type). -/
def finishSample (metric statType : ByteStr) (relative : Bool) (st : SampleState) :
    List Event × List String :=
  match buildEvent statType metric st.value relative st.labels with
  | some ev => (List.replicate st.multiplyEvents ev, st.errs)
  | none => ([], st.errs ++ List.replicate st.multiplyEvents "illegal_event")

/-- One sample of a line (the body of the `samples:` loop), returning
the events emitted and the sampleErrors increments. -/
def parseSample (metric sample : ByteStr) : Option (List Event × List String) :=
  let components := splitOnByte 124 sample
  if components.length < 2 ∨ 4 < components.length then
    some ([], ["malformed_component"])
  else
    let valueStr := components.headD []
    let statType := (components.drop 1).headD []
    let relative := isRelative valueStr
    match parseFloat? valueStr with
    | none => some ([], ["malformed_value"])
    | some value =>
      let mods := components.drop 2
      if mods.any (fun c => c.isEmpty) then some ([], ["malformed_component"])
      else
        match applyComponents statType ⟨value, 1, [], []⟩ mods with
        | none => none
        | some st => some (finishSample metric statType relative st)

def parseSamples (metric : ByteStr) : List ByteStr → Option (List Event × List String)
  | [] => some ([], [])
  | s :: rest =>
    match parseSample metric s with
    | none => none
    | some r =>
      match parseSamples metric rest with
      | none => none
      | some rs => some (r.1 ++ rs.1, r.2 ++ rs.2)

/-- `lineToEvents` from src/exporter.go.  The `List String` component
records the sampleErrors counter increments in order; `none` models the
panic reachable through an empty DogStatsD tag key. -/
def lineToEvents (line : ByteStr) : Option (List Event × List String) :=
  if line = [] then some ([], [])
  else
    let elements := splitN2 58 line
    if elements.length < 2 ∨ elements.headD [] = [] ∨ utf8Valid line = false then
      some ([], ["malformed_line"])
    else
      let metric := elements.headD []
      let rest := (elements.drop 1).headD []
      let samples :=
        if containsSeq rest [124, 35] then [rest] else splitOnByte 58 rest
      parseSamples metric samples

def linesToEvents : List ByteStr → Option (List Event × List String)
  | [] => some ([], [])
  | l :: ls =>
    match lineToEvents l with
    | none => none
    | some r =>
      match linesToEvents ls with
      | none => none
      | some rs => some (r.1 ++ rs.1, r.2 ++ rs.2)

/-- `StatsDUDPListener.handlePacket` from src/exporter.go: split the
packet on newlines and parse each line independently, concatenating the
per-line events in order. -/
def handlePacket (packet : ByteStr) : Option (List Event × List String) :=
  linesToEvents (splitOnByte 10 packet)

/-! ### Splitting lemmas -/

theorem splitN2_no_sep {b : Nat} : ∀ {s : ByteStr}, b ∉ s → splitN2 b s = [s]
  | [], _ => rfl
  | c :: rest, h => by
    have hc : c ≠ b := fun e => h (e ▸ List.mem_cons_self c rest)
    have ih := splitN2_no_sep (s := rest) (fun m => h (List.mem_cons_of_mem c m))
    simp [splitN2, hc, ih]

theorem splitN2_append {b : Nat} :
    ∀ {x : ByteStr} (y : ByteStr), b ∉ x → splitN2 b (x ++ b :: y) = [x, y]
  | [], y, _ => by simp [splitN2]
  | c :: rest, y, h => by
    have hc : c ≠ b := fun e => h (e ▸ List.mem_cons_self c rest)
    have ih := splitN2_append (x := rest) y (fun m => h (List.mem_cons_of_mem c m))
    simp [splitN2, hc, ih]

theorem splitOnByte_no_sep {b : Nat} : ∀ {s : ByteStr}, b ∉ s → splitOnByte b s = [s]
  | [], _ => rfl
  | c :: rest, h => by
    have hc : c ≠ b := fun e => h (e ▸ List.mem_cons_self c rest)
    have ih := splitOnByte_no_sep (s := rest) (fun m => h (List.mem_cons_of_mem c m))
    simp [splitOnByte, hc, ih]

theorem splitOnByte_append {b : Nat} :
    ∀ {x : ByteStr} (y : ByteStr), b ∉ x →
      splitOnByte b (x ++ b :: y) = x :: splitOnByte b y
  | [], y, _ => by
    cases hy : splitOnByte b y with
    | nil => simp [splitOnByte, hy] at *
    | cons h t => simp [splitOnByte, hy]
  | c :: rest, y, h => by
    have hc : c ≠ b := fun e => h (e ▸ List.mem_cons_self c rest)
    have ih := splitOnByte_append (x := rest) y (fun m => h (List.mem_cons_of_mem c m))
    simp [splitOnByte, hc, ih]

theorem splitOnByte_ne_nil {b : Nat} : ∀ (s : ByteStr), splitOnByte b s ≠ []
  | [] => by simp [splitOnByte]
  | c :: rest => by
    have := splitOnByte_ne_nil (b := b) rest
    cases hr : splitOnByte b rest with
    | nil => exact absurd hr this
    | cons h t => by_cases hc : c = b <;> simp [splitOnByte, hr, hc]

theorem splitOnByte_join {b : Nat} :
    ∀ (ls : List ByteStr), ls ≠ [] → (∀ l ∈ ls, b ∉ l) →
      splitOnByte b (joinBy b ls) = ls
  | [], hne, _ => absurd rfl hne
  | [x], _, h => by
    simpa [joinBy] using splitOnByte_no_sep (h x (by simp))
  | x :: y :: rest, _, h => by
    have ih := splitOnByte_join (y :: rest) (by simp)
      (fun l hl => h l (List.mem_cons_of_mem x hl))
    have hx : b ∉ x := h x (by simp)
    simp only [joinBy]
    rw [splitOnByte_append _ hx, ih]

theorem startsWithSeq_two_snd_mem {a c : Nat} :
    ∀ {s : ByteStr}, startsWithSeq s [a, c] = true → c ∈ s
  | [], h => by simp [startsWithSeq] at h
  | [x], h => by simp [startsWithSeq] at h
  | x :: y :: t, h => by
    simp [startsWithSeq] at h
    rcases h with ⟨h1, h2⟩
    rw [← h2]
    simp

theorem containsSeq_two_snd_mem {a c : Nat} :
    ∀ {s : ByteStr}, containsSeq s [a, c] = true → c ∈ s
  | [], h => by simp [containsSeq] at h
  | x :: t, h => by
    rw [containsSeq, Bool.or_eq_true] at h
    rcases h with h | h
    · exact startsWithSeq_two_snd_mem h
    · exact List.mem_cons_of_mem x (containsSeq_two_snd_mem h)

theorem containsSeq_two_eq_false {a c : Nat} {s : ByteStr} (h : c ∉ s) :
    containsSeq s [a, c] = false := by
  cases hc : containsSeq s [a, c] with
  | false => rfl
  | true => exact absurd (containsSeq_two_snd_mem hc) h

/-! ### Reduction of `lineToEvents` on structured lines -/

/-- A line `metric:rest` with a nonempty, colon-free metric, valid
UTF-8, no DogStatsD marker and no further colon parses as the single
sample `rest`. -/
theorem lineToEvents_one_sample {metric rest : ByteStr}
    (h1 : metric ≠ []) (h2 : 58 ∉ metric)
    (h3 : utf8Valid (metric ++ 58 :: rest) = true)
    (h4 : containsSeq rest [124, 35] = false)
    (h5 : 58 ∉ rest) :
    lineToEvents (metric ++ 58 :: rest) = parseSample metric rest := by
  have hne : metric ++ 58 :: rest ≠ [] := by
    cases metric with
    | nil => exact absurd rfl h1
    | cons a t => simp
  simp only [lineToEvents, if_neg hne, splitN2_append _ h2]
  simp only [List.length_cons, List.length_nil, List.headD, List.drop]
  rw [if_neg (by simp [h1, h3])]
  rw [if_neg (by simp [h4])]
  rw [splitOnByte_no_sep h5, parseSamples]
  cases hps : parseSample metric rest with
  | none => rfl
  | some r => simp [parseSamples]

/-- A three-component sample `value|type|modifier` with a parsable
value reduces to the modifier step followed by event building. -/
theorem parseSample_three {metric X T M : ByteStr} {v : ℚ}
    (hX : 124 ∉ X) (hT : 124 ∉ T) (hM : 124 ∉ M) (hMne : M ≠ [])
    (hv : parseFloat? X = some v) :
    parseSample metric (X ++ 124 :: (T ++ 124 :: M)) =
      match applyComponent T ⟨v, 1, [], []⟩ M with
      | none => none
      | some st => some (finishSample metric T (isRelative X) st) := by
  rw [parseSample]
  rw [splitOnByte_append _ hX, splitOnByte_append _ hT, splitOnByte_no_sep hM]
  simp only [List.length_cons, List.length_nil, List.headD, List.drop, hv]
  rw [if_neg (by omega)]
  simp only [List.any_cons, List.any_nil, List.isEmpty_iff, Bool.or_false]
  rw [if_neg (by simp [hMne])]
  rw [applyComponents]
  cases hac : applyComponent T ⟨v, 1, [], []⟩ M with
  | none => rfl
  | some st => simp [applyComponents]

/-- A two-component sample `value|type` with a parsable value reduces
directly to event building. -/
theorem parseSample_two {metric X T : ByteStr} {v : ℚ}
    (hX : 124 ∉ X) (hT : 124 ∉ T)
    (hv : parseFloat? X = some v) :
    parseSample metric (X ++ 124 :: T) =
      some (finishSample metric T (isRelative X) ⟨v, 1, [], []⟩) := by
  rw [parseSample]
  rw [splitOnByte_append _ hX, splitOnByte_no_sep hT]
  simp only [List.length_cons, List.length_nil, List.headD, List.drop, hv]
  rw [if_neg (by omega)]
  simp [applyComponents]

/-- Go loop count agrees with the rational floor on nonnegative values. -/
theorem truncCount_eq_floor {q : ℚ} (h : 0 ≤ q) : truncCount q = (⌊q⌋).toNat := by
  have hnum : ((q.num.toNat : ℕ) : ℚ) = ((q.num : ℤ) : ℚ) := by
    norm_cast
    exact Int.toNat_of_nonneg (Rat.num_nonneg.mpr h)
  have hq : ((q.num.toNat : ℕ) : ℚ) / ((q.den : ℕ) : ℚ) = q := by
    rw [hnum]; exact Rat.num_div_den q
  rw [Int.floor_toNat]
  conv_rhs => rw [← hq]
  rw [Rat.natFloor_natCast_div_natCast]
  rfl

theorem linesToEvents_append : ∀ (xs ys : List ByteStr),
    linesToEvents (xs ++ ys) =
      match linesToEvents xs, linesToEvents ys with
      | some a, some b => some (a.1 ++ b.1, a.2 ++ b.2)
      | _, _ => none
  | [], ys => by
    cases hys : linesToEvents ys with
    | none => simp [linesToEvents, hys]
    | some b => simp [linesToEvents, hys]
  | x :: xs, ys => by
    have ih := linesToEvents_append xs ys
    simp only [List.cons_append, linesToEvents, List.append_eq]
    rw [ih]
    cases hx : lineToEvents x <;>
      cases hxs : linesToEvents xs <;>
        cases hys : linesToEvents ys <;> simp

/-! ### The claims about the parser -/

/-- C1: for a timer sample `X|ms|@f` with sampling factor `0 < f ≤ 1`,
`lineToEvents` produces exactly `⌊1/f⌋` timer events, each with value
`X` and identical content, and no error-counter increments. -/
theorem C1_timer_sampling (metric X F : ByteStr) (v f : ℚ)
    (hm : metric ≠ []) (hm58 : 58 ∉ metric)
    (hX58 : 58 ∉ X) (hX124 : 124 ∉ X) (hX35 : 35 ∉ X)
    (hF58 : 58 ∉ F) (hF124 : 124 ∉ F) (hF35 : 35 ∉ F)
    (hutf : utf8Valid (metric ++ 58 :: (X ++ 124 :: (strMs ++ 124 :: (64 :: F)))) = true)
    (hv : parseFloat? X = some v) (hf : parseFloat? F = some f)
    (hpos : 0 < f) (hle : f ≤ 1) :
    lineToEvents (metric ++ 58 :: (X ++ 124 :: (strMs ++ 124 :: (64 :: F)))) =
      some (List.replicate (⌊1 / f⌋).toNat (Event.timer metric v []), []) := by
  have hfne : f ≠ 0 := ne_of_gt hpos
  have h5 : 58 ∉ X ++ 124 :: (strMs ++ 124 :: (64 :: F)) := by
    simp [strMs, hX58, hF58]
  have h35 : 35 ∉ X ++ 124 :: (strMs ++ 124 :: (64 :: F)) := by
    simp [strMs, hX35, hF35]
  rw [lineToEvents_one_sample hm hm58 hutf (containsSeq_two_eq_false h35) h5]
  rw [parseSample_three hX124 (by simp [strMs]) (by simp [hF124]) (by simp) hv]
  have hcnt : truncCount (1 / f) = (⌊1 / f⌋).toNat :=
    truncCount_eq_floor (by positivity)
  rw [← hcnt]
  simp [applyComponent, hf, hfne, strC, strMs, strG, strH, finishSample, buildEvent]

/-- C1 witness: the line `a:1|ms|@0.5` yields two identical timer
events of value 1. -/
theorem C1_timer_sampling_witness :
    (0 < (1/2 : ℚ) ∧ parseFloat? [48, 46, 53] = some (1/2 : ℚ)) ∧
    lineToEvents ([97] ++ 58 :: ([49] ++ 124 :: (strMs ++ 124 :: (64 :: [48, 46, 53])))) =
      some (List.replicate (⌊1 / (1/2 : ℚ)⌋).toNat (Event.timer [97] 1 []), []) :=
  ⟨⟨by norm_num,
    by norm_num [parseFloat?, parseFloatCore, takeDigits, natOfDigits, isDigitByte]⟩,
    C1_timer_sampling [97] [49] [48, 46, 53] 1 (1/2)
      (by decide) (by decide) (by decide) (by decide) (by decide) (by decide)
      (by decide) (by decide) (by decide)
      (by norm_num [parseFloat?, parseFloatCore, takeDigits, natOfDigits, isDigitByte])
      (by norm_num [parseFloat?, parseFloatCore, takeDigits, natOfDigits, isDigitByte])
      (by norm_num) (by norm_num)⟩

/-- C2: for a counter sample `X|c|@f` with `0 < f ≤ 1`, the recorded
value is the raw value divided by `f`; a factor of exactly zero is
treated as one (the value is unchanged). -/
theorem C2_counter_sampling (metric X F : ByteStr) (v f : ℚ)
    (hm : metric ≠ []) (hm58 : 58 ∉ metric)
    (hX58 : 58 ∉ X) (hX124 : 124 ∉ X) (hX35 : 35 ∉ X)
    (hF58 : 58 ∉ F) (hF124 : 124 ∉ F) (hF35 : 35 ∉ F)
    (hutf : utf8Valid (metric ++ 58 :: (X ++ 124 :: (strC ++ 124 :: (64 :: F)))) = true)
    (hv : parseFloat? X = some v) (hf : parseFloat? F = some f)
    (hf01 : f = 0 ∨ (0 < f ∧ f ≤ 1)) :
    lineToEvents (metric ++ 58 :: (X ++ 124 :: (strC ++ 124 :: (64 :: F)))) =
      some ([Event.counter metric (if f = 0 then v else v / f) []], []) := by
  have h5 : 58 ∉ X ++ 124 :: (strC ++ 124 :: (64 :: F)) := by
    simp [strC, hX58, hF58]
  have h35 : 35 ∉ X ++ 124 :: (strC ++ 124 :: (64 :: F)) := by
    simp [strC, hX35, hF35]
  rw [lineToEvents_one_sample hm hm58 hutf (containsSeq_two_eq_false h35) h5]
  rw [parseSample_three hX124 (by simp [strC]) (by simp [hF124]) (by simp) hv]
  rcases hf01 with hf0 | ⟨hpos, _⟩
  · subst hf0
    simp [applyComponent, hf, strC, strMs, strG, strH, finishSample, buildEvent]
  · have hfne : f ≠ 0 := ne_of_gt hpos
    simp [applyComponent, hf, hfne, strC, strMs, strG, strH, finishSample, buildEvent]

/-- C2 witness: `a:1|c|@0.5` records value 2; `a:1|c|@0` records 1. -/
theorem C2_counter_sampling_witness :
    ((0 : ℚ) < 1/2 ∧ (1/2 : ℚ) ≤ 1) ∧
    lineToEvents ([97] ++ 58 :: ([49] ++ 124 :: (strC ++ 124 :: (64 :: [48, 46, 53])))) =
      some ([Event.counter [97] (if (1/2 : ℚ) = 0 then 1 else 1 / (1/2 : ℚ)) []], []) ∧
    lineToEvents ([97] ++ 58 :: ([49] ++ 124 :: (strC ++ 124 :: (64 :: [48])))) =
      some ([Event.counter [97] (if (0 : ℚ) = 0 then 1 else 1 / (0 : ℚ)) []], []) :=
  ⟨⟨by norm_num, by norm_num⟩,
    C2_counter_sampling [97] [49] [48, 46, 53] 1 (1/2)
      (by decide) (by decide) (by decide) (by decide) (by decide) (by decide)
      (by decide) (by decide) (by decide)
      (by norm_num [parseFloat?, parseFloatCore, takeDigits, natOfDigits, isDigitByte])
      (by norm_num [parseFloat?, parseFloatCore, takeDigits, natOfDigits, isDigitByte])
      (Or.inr ⟨by norm_num, by norm_num⟩),
    C2_counter_sampling [97] [49] [48] 1 0
      (by decide) (by decide) (by decide) (by decide) (by decide) (by decide)
      (by decide) (by decide) (by decide)
      (by norm_num [parseFloat?, parseFloatCore, takeDigits, natOfDigits, isDigitByte])
      (by norm_num [parseFloat?, parseFloatCore, takeDigits, natOfDigits, isDigitByte])
      (Or.inl rfl)⟩

/-- C5 (amended): UTF-8 validity is enforced per line, not for the
whole received slice: a line that is not valid UTF-8 yields zero
events and exactly one `malformed_line` increment. -/
theorem C5_invalid_utf8_line (line : ByteStr) (h : utf8Valid line = false) :
    lineToEvents line = some ([], ["malformed_line"]) := by
  have hne : line ≠ [] := by
    intro e
    subst e
    exact absurd h (by decide)
  simp only [lineToEvents, if_neg hne]
  rw [if_pos (Or.inr (Or.inr h))]

/-- C5 witness: the single byte 0xff is not valid UTF-8 and is
rejected as a malformed line. -/
theorem C5_invalid_utf8_line_witness :
    utf8Valid [255] = false ∧
    lineToEvents [255] = some ([], ["malformed_line"]) :=
  ⟨by decide, C5_invalid_utf8_line [255] (by decide)⟩

/-- C5 counterexample: the packet `a:1|c\n\xff` is not valid UTF-8 as a
whole, yet parsing it emits one counter event (for the valid first
line) rather than zero events, because validity is checked line by
line. -/
theorem C5_whole_slice_cx :
    utf8Valid [97, 58, 49, 124, 99, 10, 255] = false ∧
    handlePacket [97, 58, 49, 124, 99, 10, 255] =
      some ([Event.counter [97] 1 []], ["malformed_line"]) ∧
    ([Event.counter [97] 1 []] : List Event) ≠ [] := by
  refine ⟨by decide, ?_, by simp⟩
  have hv : parseFloat? [49] = some (1 : ℚ) := by
    norm_num [parseFloat?, parseFloatCore, takeDigits, natOfDigits, isDigitByte]
  have h1 : lineToEvents [97, 58, 49, 124, 99] = some ([Event.counter [97] 1 []], []) := by
    have e : ([97, 58, 49, 124, 99] : ByteStr) = [97] ++ 58 :: ([49] ++ 124 :: strC) := rfl
    rw [e]
    rw [lineToEvents_one_sample (by decide) (by decide) (by decide) (by decide) (by decide)]
    rw [parseSample_two (by decide) (by decide) hv]
    simp [finishSample, buildEvent, strC, isRelative]
  have h2 : lineToEvents [255] = some ([], ["malformed_line"]) := by decide
  have esplit : splitOnByte 10 [97, 58, 49, 124, 99, 10, 255]
      = [[97, 58, 49, 124, 99], [255]] := by decide
  simp [handlePacket, esplit, linesToEvents, h1, h2]

/-- C6 (amended): a sample with an `@` modifier whose stat type is
neither `c` nor `ms` increments `illegal_sample_factor` exactly once,
but the parser then continues with the same sample (the misplaced
modifier is merely ignored), so the sample still contributes exactly
the events it would contribute without the modifier, and the call
returns normally. -/
theorem C6_illegal_sample_factor (metric X T F : ByteStr) (v : ℚ)
    (hm : metric ≠ []) (hm58 : 58 ∉ metric)
    (hX58 : 58 ∉ X) (hX124 : 124 ∉ X) (hX35 : 35 ∉ X)
    (hT58 : 58 ∉ T) (hT124 : 124 ∉ T) (hT35 : 35 ∉ T)
    (hF58 : 58 ∉ F) (hF124 : 124 ∉ F) (hF35 : 35 ∉ F)
    (hTc : T ≠ strC) (hTms : T ≠ strMs)
    (hutf1 : utf8Valid (metric ++ 58 :: (X ++ 124 :: (T ++ 124 :: (64 :: F)))) = true)
    (hutf2 : utf8Valid (metric ++ 58 :: (X ++ 124 :: T)) = true)
    (hv : parseFloat? X = some v) :
    lineToEvents (metric ++ 58 :: (X ++ 124 :: (T ++ 124 :: (64 :: F)))) =
      (lineToEvents (metric ++ 58 :: (X ++ 124 :: T))).map
        (fun r => (r.1, "illegal_sample_factor" :: r.2)) := by
  have h5a : 58 ∉ X ++ 124 :: (T ++ 124 :: (64 :: F)) := by
    simp [hX58, hT58, hF58]
  have h35a : 35 ∉ X ++ 124 :: (T ++ 124 :: (64 :: F)) := by
    simp [hX35, hT35, hF35]
  have h5b : 58 ∉ X ++ 124 :: T := by simp [hX58, hT58]
  have h35b : 35 ∉ X ++ 124 :: T := by simp [hX35, hT35]
  rw [lineToEvents_one_sample hm hm58 hutf1 (containsSeq_two_eq_false h35a) h5a]
  rw [lineToEvents_one_sample hm hm58 hutf2 (containsSeq_two_eq_false h35b) h5b]
  rw [parseSample_three hX124 hT124 (by simp [hF124]) (by simp) hv]
  rw [parseSample_two hX124 hT124 hv]
  simp only [applyComponent, if_pos rfl, if_pos (And.intro hTc hTms)]
  cases hbe : buildEvent T metric v (isRelative X) [] <;>
    simp [finishSample, hbe]

/-- C6 witness: `a:1|g|@0.5` versus `a:1|g`. -/
theorem C6_illegal_sample_factor_witness :
    ((strG : ByteStr) ≠ strC ∧ (strG : ByteStr) ≠ strMs) ∧
    lineToEvents ([97] ++ 58 :: ([49] ++ 124 :: (strG ++ 124 :: (64 :: [48, 46, 53])))) =
      (lineToEvents ([97] ++ 58 :: ([49] ++ 124 :: strG))).map
        (fun r => (r.1, "illegal_sample_factor" :: r.2)) :=
  ⟨⟨by decide, by decide⟩,
    C6_illegal_sample_factor [97] [49] strG [48, 46, 53] 1
      (by decide) (by decide) (by decide) (by decide) (by decide) (by decide)
      (by decide) (by decide) (by decide) (by decide) (by decide) (by decide)
      (by decide) (by decide) (by decide)
      (by norm_num [parseFloat?, parseFloatCore, takeDigits, natOfDigits, isDigitByte])⟩

/-- C6 counterexample: `a:1|g|@0.5` carries an `@` modifier on a gauge;
`illegal_sample_factor` is incremented, but the sample still
contributes its gauge event — it is not dropped as the claim states. -/
theorem C6_still_emits_cx :
    lineToEvents [97, 58, 49, 124, 103, 124, 64, 48, 46, 53] =
      some ([Event.gauge [97] 1 false []], ["illegal_sample_factor"]) ∧
    ([Event.gauge [97] 1 false []] : List Event) ≠ [] := by
  constructor
  · have hv : parseFloat? [49] = some (1 : ℚ) := by
      norm_num [parseFloat?, parseFloatCore, takeDigits, natOfDigits, isDigitByte]
    have e : ([97, 58, 49, 124, 103, 124, 64, 48, 46, 53] : ByteStr)
        = [97] ++ 58 :: ([49] ++ 124 :: (strG ++ 124 :: (64 :: [48, 46, 53]))) := rfl
    rw [e]
    rw [lineToEvents_one_sample (by decide) (by decide) (by decide) (by decide) (by decide)]
    rw [parseSample_three (by decide) (by decide) (by decide) (by decide) hv]
    simp [applyComponent, strC, strMs, strG, strH, finishSample, buildEvent, isRelative]
  · simp

/-- C7: lines of a packet are parsed independently and their events
concatenated in per-line order; inserting a line that yields no events
between the others leaves the emitted event sequence unchanged. -/
theorem C7_line_isolation (ls₁ ls₂ : List ByteStr) (m : ByteStr) (errs : List String)
    (h1 : ∀ l ∈ ls₁, 10 ∉ l) (h2 : ∀ l ∈ ls₂, 10 ∉ l) (hm : 10 ∉ m)
    (hne : ls₁ ++ ls₂ ≠ [])
    (hmal : lineToEvents m = some ([], errs)) :
    (handlePacket (joinBy 10 (ls₁ ++ m :: ls₂))).map Prod.fst
      = (handlePacket (joinBy 10 (ls₁ ++ ls₂))).map Prod.fst ∧
    handlePacket (joinBy 10 (ls₁ ++ ls₂)) = linesToEvents (ls₁ ++ ls₂) := by
  have hall1 : ∀ l ∈ ls₁ ++ m :: ls₂, 10 ∉ l := by
    intro l hl
    rcases List.mem_append.mp hl with h | h
    · exact h1 l h
    · rcases List.mem_cons.mp h with h | h
      · exact h ▸ hm
      · exact h2 l h
  have hall2 : ∀ l ∈ ls₁ ++ ls₂, 10 ∉ l := by
    intro l hl
    rcases List.mem_append.mp hl with h | h
    · exact h1 l h
    · exact h2 l h
  have e1 : splitOnByte 10 (joinBy 10 (ls₁ ++ m :: ls₂)) = ls₁ ++ m :: ls₂ :=
    splitOnByte_join _ (by simp) hall1
  have e2 : splitOnByte 10 (joinBy 10 (ls₁ ++ ls₂)) = ls₁ ++ ls₂ := by
    exact splitOnByte_join _ hne hall2
  refine ⟨?_, by simp only [handlePacket, e2]⟩
  simp only [handlePacket, e1, e2]
  rw [linesToEvents_append ls₁ (m :: ls₂), linesToEvents_append ls₁ ls₂]
  cases ha : linesToEvents ls₁ <;>
    cases hb : linesToEvents ls₂ <;>
      simp [linesToEvents, hmal, ha, hb]

/-- C7 witness: the malformed line `x` inserted between `a:1|c` and
`b:2|c` does not change the emitted events. -/
theorem C7_line_isolation_witness :
    lineToEvents [120] = some ([], ["malformed_line"]) ∧
    ((handlePacket (joinBy 10 ([[97, 58, 49, 124, 99]] ++ [120] :: [[98, 58, 50, 124, 99]]))).map Prod.fst
      = (handlePacket (joinBy 10 ([[97, 58, 49, 124, 99]] ++ [[98, 58, 50, 124, 99]]))).map Prod.fst ∧
    handlePacket (joinBy 10 ([[97, 58, 49, 124, 99]] ++ [[98, 58, 50, 124, 99]]))
      = linesToEvents ([[97, 58, 49, 124, 99]] ++ [[98, 58, 50, 124, 99]])) :=
  ⟨by decide,
    C7_line_isolation [[97, 58, 49, 124, 99]] [[98, 58, 50, 124, 99]] [120]
      ["malformed_line"] (by decide) (by decide) (by decide) (by decide) (by decide)⟩

/-- C10: the empty line yields no events and no error-counter
increments, so a packet ending in a trailing newline produces no
spurious parse errors for its empty final line. -/
theorem C10_empty_line : lineToEvents [] = some ([], []) := by decide

/-! ### C9: the name sanitizer -/

theorem replaceRunes_nil : replaceRunes [] = [] := by
  rw [replaceRunes]

theorem replaceRunes_cons (b : Nat) (rest : ByteStr) :
    replaceRunes (b :: rest) =
      (if b < 128 && isLegalByte b then b else 95)
        :: replaceRunes (rest.drop (runeStep b rest)) := by
  rw [replaceRunes]

/-- Every byte of the replacement output is legal. -/
theorem replaceRunes_out_legal : ∀ (n : Nat) (s : ByteStr), s.length ≤ n →
    ∀ x ∈ replaceRunes s, isLegalByte x = true
  | _, [], _, x, hx => by
    rw [replaceRunes_nil] at hx
    exact absurd hx (List.not_mem_nil x)
  | 0, b :: rest, hlen, x, hx => by simp at hlen
  | Nat.succ n, b :: rest, hlen, x, hx => by
    rw [replaceRunes_cons] at hx
    rcases List.mem_cons.mp hx with hx | hx
    · subst hx
      by_cases hc : (b < 128 && isLegalByte b) = true
      · rw [if_pos hc]
        exact (Bool.and_eq_true _ _ |>.mp hc).2
      · rw [if_neg hc]
        decide
    · refine replaceRunes_out_legal n (rest.drop (runeStep b rest)) ?_ x hx
      have h1 : (rest.drop (runeStep b rest)).length ≤ rest.length := by
        rw [List.length_drop]; omega
      have h2 : rest.length + 1 ≤ n + 1 := by simpa using hlen
      omega

/-- Legal bytes are ASCII. -/
theorem isLegalByte_lt_128 {b : Nat} (h : isLegalByte b = true) : b < 128 := by
  simp [isLegalByte] at h
  rcases h with h1 | h1 | h1 | h1 <;> omega

/-- On an all-legal string the replacement pass is the identity. -/
theorem replaceRunes_id_of_legal : ∀ (n : Nat) (s : ByteStr), s.length ≤ n →
    (∀ x ∈ s, isLegalByte x = true) → replaceRunes s = s
  | _, [], _, _ => replaceRunes_nil
  | 0, b :: rest, hlen, _ => by simp at hlen
  | Nat.succ n, b :: rest, hlen, h => by
    have hb : isLegalByte b = true := h b (List.mem_cons_self b rest)
    have hb128 : b < 128 := isLegalByte_lt_128 hb
    have hstep : runeStep b rest = 0 := by simp [runeStep, hb128]
    have hlen' : rest.length ≤ n := by
      have : rest.length + 1 ≤ n + 1 := by simpa using hlen
      omega
    rw [replaceRunes_cons, hstep, List.drop_zero]
    rw [replaceRunes_id_of_legal n rest hlen' (fun x hx => h x (List.mem_cons_of_mem b hx))]
    have hbb : (decide (b < 128) && isLegalByte b) = true := by
      rw [hb, decide_eq_true hb128]
      rfl
    rw [if_pos hbb]

theorem escapeMetricName_eq (b : Nat) (rest : ByteStr) :
    escapeMetricName (b :: rest) =
      some (replaceRunes (if 48 ≤ b && b ≤ 57 then 95 :: b :: rest else b :: rest)) := by
  rw [escapeMetricName]

/-- Helper: sanitizing the output of the replacement pass again is the
identity, provided its first byte is not a digit. -/
theorem escape_replace_fixed (c : Nat) (t : ByteStr)
    (hc : isLegalByte c = true) (hcd : (48 ≤ c && c ≤ 57) = false)
    (ht : ∀ x ∈ t, isLegalByte x = true) :
    escapeMetricName (c :: t) = some (c :: t) := by
  rw [escapeMetricName_eq, hcd]
  simp only [Bool.false_eq_true, if_false]
  rw [replaceRunes_id_of_legal (c :: t).length (c :: t) le_rfl]
  intro x hx
  rcases List.mem_cons.mp hx with hx | hx
  · exact hx ▸ hc
  · exact ht x hx

/-- C9 (amended): the name sanitizer of src/exporter.go is idempotent
on every non-empty input, where one application prepends `_` when the
first byte is an ASCII digit and replaces every UTF-8 rune (one
underscore per valid rune, one per invalid byte) outside
`[A-Za-z0-9_]` with `_`. -/
theorem C9_escape_idempotent (m : ByteStr) (hne : m ≠ []) :
    (escapeMetricName m).bind escapeMetricName = escapeMetricName m := by
  cases m with
  | nil => exact absurd rfl hne
  | cons b rest =>
    rw [escapeMetricName_eq]
    by_cases hd : (48 ≤ b && b ≤ 57) = true
    · rw [if_pos hd, replaceRunes_cons, Option.some_bind]
      rw [show (if (95 < 128 && isLegalByte 95) = true then 95 else 95) = 95 from by decide]
      rw [escape_replace_fixed 95 _ (by decide) (by decide)
        (replaceRunes_out_legal _ _ le_rfl)]
    · rw [if_neg hd, replaceRunes_cons, Option.some_bind]
      by_cases hl : (b < 128 && isLegalByte b) = true
      · rw [if_pos hl]
        rw [escape_replace_fixed b _ (Bool.and_eq_true _ _ |>.mp hl).2
          (Bool.eq_false_iff.mpr (fun hh => hd hh))
          (replaceRunes_out_legal _ _ le_rfl)]
      · rw [if_neg hl]
        rw [escape_replace_fixed 95 _ (by decide) (by decide)
          (replaceRunes_out_legal _ _ le_rfl)]

/-- C9 witness: idempotence at the concrete name `a.b`. -/
theorem C9_escape_idempotent_witness :
    (([97, 46, 98] : ByteStr) ≠ []) ∧
    (escapeMetricName [97, 46, 98]).bind escapeMetricName = escapeMetricName [97, 46, 98] :=
  ⟨by decide, C9_escape_idempotent [97, 46, 98] (by decide)⟩

/-- Modelled from the claim's wording (spec section 4.5): a BYTE-level
sanitizer that prepends `_` when the first byte is an ASCII digit and
replaces every byte outside `[A-Za-z0-9_]` with `_`.  Stated only for
comparison with the source function, which replaces per rune. -/
def escapeMetricNameSpecBytes (m : ByteStr) : ByteStr :=
  match m with
  | [] => []
  | b :: rest =>
    (if 48 ≤ b && b ≤ 57 then 95 :: b :: rest else b :: rest).map
      (fun c => if isLegalByte c then c else 95)

/-- C9 counterexample: on the two-byte UTF-8 rune 0xC3 0xA9 (a lower
case e with acute accent) the source sanitizer emits one underscore,
while the byte-by-byte description in the claim demands two. -/
theorem C9_byte_description_cx :
    escapeMetricName [195, 169] = some [95] ∧
    escapeMetricNameSpecBytes [195, 169] = [95, 95] ∧
    some (escapeMetricNameSpecBytes [195, 169]) ≠ escapeMetricName [195, 169] := by
  have h : escapeMetricName [195, 169] = some [95] := by
    rw [escapeMetricName_eq, if_neg (by decide), replaceRunes_cons]
    norm_num [runeStep, isCont, leadRange, isLegalByte, replaceRunes_nil]
  refine ⟨h, by decide, ?_⟩
  rw [h]
  decide

/-! ### The exporter: handleEvent, saveLabelValues, removeStaleMetrics -/

inductive MetricType where
  | counter
  | gauge
  | timer
deriving DecidableEq

/-- mapper.ActionType; the zero value `""` and `"map"` behave alike, so
both are `actMap`. -/
inductive ActionType where
  | actMap
  | actDrop
deriving DecidableEq

/-- mapper.TimerType; the zero value is `TimerTypeDefault`. -/
inductive TimerKind where
  | timerDefault
  | timerSummary
  | timerHistogram
deriving DecidableEq

/-- mapper.MetricMapping, restricted to the fields handleEvent reads. -/
structure MetricMapping where
  Name : ByteStr
  Action : ActionType
  Ttl : Int
  HelpText : ByteStr
  TimerType : TimerKind
deriving DecidableEq

structure MapperDefaults where
  Ttl : Int
  TimerType : TimerKind
deriving DecidableEq

/-- The mapper as handleEvent sees it: `GetMapping` returns a mapping
(or nil), extracted labels, and the `present` flag.  The mapping engine
itself lives in the (absent) mapper package, so it is universally
quantified here. -/
structure MapperModel where
  getMapping : ByteStr → MetricType → Option MetricMapping × Labels × Bool
  defaults : MapperDefaults

def evName : Event → ByteStr
  | .counter n _ _ => n
  | .gauge n _ _ _ => n
  | .timer n _ _ => n

def evLabels : Event → Labels
  | .counter _ _ l => l
  | .gauge _ _ _ l => l
  | .timer _ _ l => l

def evType : Event → MetricType
  | .counter _ _ _ => .counter
  | .gauge _ _ _ _ => .gauge
  | .timer _ _ _ => .timer

/-- The label used for eventStats / conflictingEventStats. -/
def typeLabel : Event → String
  | .counter _ _ _ => "counter"
  | .gauge _ _ _ _ => "gauge"
  | .timer _ _ _ => "timer"

/-- Lexicographic byte-string order, for sorting label names. -/
def bytesLe : ByteStr → ByteStr → Bool
  | [], _ => true
  | _ :: _, [] => false
  | a :: x, b :: y => if a < b then true else if b < a then false else bytesLe x y

def insertSorted (p : ByteStr × ByteStr) : Labels → Labels
  | [] => [p]
  | q :: rest => if bytesLe p.1 q.1 then p :: q :: rest else q :: insertSorted p rest

/-- The canonical (key-sorted) form of a label map.  It stands in for
the fnv64a hash of name+labels used by the source to key children and
label-value records: two Go maps are equal exactly when their canonical
forms are. -/
def canonLabels (ls : Labels) : Labels := ls.foldr insertSorted []

/-- `labelNames` from src/exporter.go: the sorted label names. -/
def labelNames (ls : Labels) : List ByteStr := (canonLabels ls).map Prod.fst

/-- One metric vector (prometheus CounterVec / GaugeVec / SummaryVec /
HistogramVec): the label-name schema fixed at registration, and the
children keyed by canonical label values.  `α` is the child state:
`ℚ` for counters and gauges, `List ℚ` (the observations) for
summaries and histograms. -/
structure MetricVec (α : Type) where
  schema : List ByteStr
  children : List (Labels × α)
deriving DecidableEq

/-- prometheus's per-metric-family record for handleEvent's purposes. -/
structure LabelValues where
  lastRegisteredAt : Int
  labels : Labels
  ttl : Int
deriving DecidableEq

structure ExporterState where
  counters : List (ByteStr × MetricVec ℚ)
  gauges : List (ByteStr × MetricVec ℚ)
  summaries : List (ByteStr × MetricVec (List ℚ))
  histograms : List (ByteStr × MetricVec (List ℚ))
  registry : List ByteStr
  labelValues : List (ByteStr × List (Labels × LabelValues))
  eventStats : List (String × Nat)
  conflictingEventStats : List (String × Nat)
  eventsUnmapped : Nat

def statGet (stats : List (String × Nat)) (k : String) : Nat :=
  (alookup stats k).getD 0

def bumpStat (stats : List (String × Nat)) (k : String) : List (String × Nat) :=
  aupsert stats k ((alookup stats k).getD 0 + 1)

/-- One `Get` plus the following child update, against a container and
the global prometheus registry.  Mirrors the container `Get` methods of
src/exporter.go together with the subsequent Add/Set/Observe: a vec
missing from `Elements` is created and registered — registration fails
(`none`) when the global registry already holds a collector of that
name — and an existing vec accepts the labels only when their sorted
names equal the registered schema (`GetMetricWith` fails otherwise);
the child is created from `init` on first use and updated with `upd`. -/
def containerGetUpd {α : Type} (init : α) (upd : α → α)
    (cont : List (ByteStr × MetricVec α)) (registry : List ByteStr)
    (name : ByteStr) (labels : Labels) :
    Option (List (ByteStr × MetricVec α) × List ByteStr) :=
  match alookup cont name with
  | some vec =>
    if labelNames labels = vec.schema then
      let key := canonLabels labels
      let newChildren := aupsert vec.children key (upd ((alookup vec.children key).getD init))
      some (aupsert cont name { vec with children := newChildren }, registry)
    else none
  | none =>
    if name ∈ registry then none
    else
      let vec : MetricVec α := { schema := labelNames labels, children := [(canonLabels labels, upd init)] }
      some (aupsert cont name vec, registry ++ [name])

/-- The container `Delete` methods: a no-op unless the name is present
and the label names match the schema (prometheus `Delete` fails
silently on a schema mismatch). -/
def containerDelete {α : Type} (cont : List (ByteStr × MetricVec α))
    (name : ByteStr) (labels : Labels) : List (ByteStr × MetricVec α) :=
  match alookup cont name with
  | none => cont
  | some vec =>
    if labelNames labels = vec.schema then
      aupsert cont name { vec with children := aerase vec.children (canonLabels labels) }
    else cont

/-- The child state under a name and canonical key, defaulting to the
freshly created value. -/
def childValue {α : Type} (cont : List (ByteStr × MetricVec α)) (name : ByteStr)
    (labels : Labels) (init : α) : α :=
  match alookup cont name with
  | none => init
  | some vec => (alookup vec.children (canonLabels labels)).getD init

def childLookup {α : Type} (cont : List (ByteStr × MetricVec α)) (name : ByteStr)
    (key : Labels) : Option α :=
  match alookup cont name with
  | none => none
  | some vec => alookup vec.children key

/-- `saveLabelValues` from src/exporter.go: create the record on first
sight (storing the labels), then refresh `lastRegisteredAt` and the
ttl. -/
def saveLabelValues (lv : List (ByteStr × List (Labels × LabelValues)))
    (metricName : ByteStr) (labels : Labels) (ttl : Int) (now : Int) :
    List (ByteStr × List (Labels × LabelValues)) :=
  let grp := (alookup lv metricName).getD []
  let key := canonLabels labels
  let r :=
    match alookup grp key with
    | some r0 => { r0 with lastRegisteredAt := now, ttl := ttl }
    | none => { lastRegisteredAt := now, labels := labels, ttl := ttl }
  aupsert lv metricName (aupsert grp key r)

/-- The mapping actually used by handleEvent: the returned one, or a
fresh empty mapping whose Ttl is taken from the defaults when those
specify one. -/
def effectiveMapping (M : MapperModel) (ev : Event) : MetricMapping :=
  match (M.getMapping (evName ev) (evType ev)).1 with
  | some mp => mp
  | none =>
    { Name := [], Action := .actMap,
      Ttl := if M.defaults.Ttl ≠ 0 then M.defaults.Ttl else 0,
      HelpText := [], TimerType := .timerDefault }

/-- Overlay the mapping labels onto the event's DogStatsD labels (the
mapping wins on conflicts). -/
def mergeLabels (base extra : Labels) : Labels :=
  extra.foldl (fun acc kv => aupsert acc kv.1 kv.2) base

/-- Name and label resolution of handleEvent: the escaped mapping name
plus merged labels when a mapping is present, else the escaped event
name (bumping eventsUnmapped is handled in `handleEvent`).  `none`
models the panic of `escapeMetricName` on an empty name. -/
def resolveTarget (M : MapperModel) (ev : Event) : Option (ByteStr × Labels × Bool) :=
  if (M.getMapping (evName ev) (evType ev)).2.2 then
    (escapeMetricName (effectiveMapping M ev).Name).map
      (fun n => (n, mergeLabels (evLabels ev) (M.getMapping (evName ev) (evType ev)).2.1, true))
  else
    (escapeMetricName (evName ev)).map (fun n => (n, evLabels ev, false))

/-- Timer family choice: the mapping's timer type, falling back to the
defaults when it is the zero value. -/
def resolvedTimerKind (M : MapperModel) (ev : Event) : TimerKind :=
  if (effectiveMapping M ev).TimerType = .timerDefault then M.defaults.TimerType
  else (effectiveMapping M ev).TimerType

/-- `handleEvent` from src/exporter.go.  `now` is the clock reading
used by `saveLabelValues`; `none` models the reachable panic on an
empty (mapped or unmapped) metric name. -/
def handleEvent (M : MapperModel) (now : Int) (st : ExporterState) (event : Event) :
    Option ExporterState :=
  if (effectiveMapping M event).Action = .actDrop then some st
  else
    match resolveTarget M event with
    | none => none
    | some (metricName, prometheusLabels, present) =>
      let st1 := if present then st else { st with eventsUnmapped := st.eventsUnmapped + 1 }
      let ttl := (effectiveMapping M event).Ttl
      match event with
      | .counter _ v _ =>
        if v < 0 then
          some { st1 with eventStats := bumpStat st1.eventStats "illegal_negative_counter" }
        else
          match containerGetUpd 0 (fun old => old + v)
              st1.counters st1.registry metricName prometheusLabels with
          | some (c, reg) =>
            some { st1 with
                    counters := c,
                    registry := reg,
                    labelValues := saveLabelValues st1.labelValues metricName prometheusLabels ttl now,
                    eventStats := bumpStat st1.eventStats "counter" }
          | none =>
            some { st1 with conflictingEventStats := bumpStat st1.conflictingEventStats "counter" }
      | .gauge _ v relative _ =>
        match containerGetUpd 0 (fun old => if relative then old + v else v)
            st1.gauges st1.registry metricName prometheusLabels with
        | some (g, reg) =>
          some { st1 with
                  gauges := g,
                  registry := reg,
                  labelValues := saveLabelValues st1.labelValues metricName prometheusLabels ttl now,
                  eventStats := bumpStat st1.eventStats "gauge" }
        | none =>
          some { st1 with conflictingEventStats := bumpStat st1.conflictingEventStats "gauge" }
      | .timer _ v _ =>
        match resolvedTimerKind M event with
        | .timerHistogram =>
          match containerGetUpd ([] : List ℚ) (fun old => old ++ [v / 1000])
              st1.histograms st1.registry metricName prometheusLabels with
          | some (hs, reg) =>
            some { st1 with
                    histograms := hs,
                    registry := reg,
                    labelValues := saveLabelValues st1.labelValues metricName prometheusLabels ttl now,
                    eventStats := bumpStat st1.eventStats "timer" }
          | none =>
            some { st1 with conflictingEventStats := bumpStat st1.conflictingEventStats "timer" }
        | _ =>
          match containerGetUpd ([] : List ℚ) (fun old => old ++ [v / 1000])
              st1.summaries st1.registry metricName prometheusLabels with
          | some (sm, reg) =>
            some { st1 with
                    summaries := sm,
                    registry := reg,
                    labelValues := saveLabelValues st1.labelValues metricName prometheusLabels ttl now,
                    eventStats := bumpStat st1.eventStats "timer" }
          | none =>
            some { st1 with conflictingEventStats := bumpStat st1.conflictingEventStats "timer" }

/-- The staleness test of `removeStaleMetrics`: a nonzero ttl whose
window has passed. -/
def staleB (now : Int) (r : LabelValues) : Bool :=
  !(r.ttl = 0) && decide (r.lastRegisteredAt + r.ttl < now)

/-- Deletion of one label-value record by name and key. -/
def lvDelete (lv : List (ByteStr × List (Labels × LabelValues)))
    (name : ByteStr) (key : Labels) : List (ByteStr × List (Labels × LabelValues)) :=
  match alookup lv name with
  | none => lv
  | some grp => aupsert lv name (aerase grp key)

/-- The body of the record loop of `removeStaleMetrics`: skip a zero
ttl; on expiry delete the child from all four containers and drop the
record. -/
def removeStaleOne (now : Int) (metricName : ByteStr) (st : ExporterState)
    (kr : Labels × LabelValues) : ExporterState :=
  if kr.2.ttl = 0 then st
  else if kr.2.lastRegisteredAt + kr.2.ttl < now then
    { st with
      counters := containerDelete st.counters metricName kr.2.labels,
      gauges := containerDelete st.gauges metricName kr.2.labels,
      summaries := containerDelete st.summaries metricName kr.2.labels,
      histograms := containerDelete st.histograms metricName kr.2.labels,
      labelValues := lvDelete st.labelValues metricName kr.1 }
  else st

/-- `removeStaleMetrics` from src/exporter.go: iterate every
label-value record and evict the expired ones. -/
def removeStaleMetrics (now : Int) (st : ExporterState) : ExporterState :=
  st.labelValues.foldl
    (fun acc entry => entry.2.foldl (removeStaleOne now entry.1) acc) st

def lvLookup (st : ExporterState) (name : ByteStr) (key : Labels) : Option LabelValues :=
  match alookup st.labelValues name with
  | none => none
  | some grp => alookup grp key

/-! ### Association-list lemmas -/

theorem alookup_aupsert_self {α β : Type} [DecidableEq α] :
    ∀ (l : List (α × β)) (k : α) (v : β), alookup (aupsert l k v) k = some v
  | [], k, v => by simp [aupsert, alookup]
  | (a, b) :: rest, k, v => by
    by_cases h : a = k
    · simp [aupsert, alookup, h]
    · simp [aupsert, alookup, h, alookup_aupsert_self rest k v]

theorem alookup_aupsert_ne {α β : Type} [DecidableEq α] :
    ∀ (l : List (α × β)) (k k' : α) (v : β), k' ≠ k →
      alookup (aupsert l k v) k' = alookup l k'
  | [], k, k', v, h => by
    simp [aupsert, alookup, Ne.symm h]
  | (a, b) :: rest, k, k', v, h => by
    by_cases ha : a = k
    · subst ha
      simp [aupsert, alookup, Ne.symm h]
    · simp [aupsert, alookup, ha, alookup_aupsert_ne rest k k' v h]

theorem aerase_cons {α β : Type} [DecidableEq α] (a : α) (b : β)
    (rest : List (α × β)) (k : α) :
    aerase ((a, b) :: rest) k =
      if a = k then aerase rest k else (a, b) :: aerase rest k := by
  by_cases h : a = k <;> simp [aerase, List.filter_cons, h]

theorem alookup_aerase_self {α β : Type} [DecidableEq α] :
    ∀ (l : List (α × β)) (k : α), alookup (aerase l k) k = none
  | [], k => rfl
  | (a, b) :: rest, k => by
    by_cases h : a = k
    · simp [aerase_cons, h, alookup_aerase_self rest k]
    · simp [aerase_cons, alookup, h, alookup_aerase_self rest k]

theorem alookup_aerase_ne {α β : Type} [DecidableEq α] :
    ∀ (l : List (α × β)) (k k' : α), k' ≠ k →
      alookup (aerase l k) k' = alookup l k'
  | [], _, _, _ => rfl
  | (a, b) :: rest, k, k', h => by
    by_cases ha : a = k
    · subst ha
      simp [aerase_cons, alookup, Ne.symm h, alookup_aerase_ne rest a k' h]
    · simp [aerase_cons, alookup, ha, alookup_aerase_ne rest k k' h]

theorem alookup_some_mem {α β : Type} [DecidableEq α] :
    ∀ {l : List (α × β)} {k : α} {v : β}, alookup l k = some v → (k, v) ∈ l
  | [], k, v, h => by simp [alookup] at h
  | (a, b) :: rest, k, v, h => by
    rw [alookup] at h
    by_cases ha : a = k
    · rw [if_pos ha] at h
      subst ha
      cases h
      simp
    · rw [if_neg ha] at h
      exact List.mem_cons_of_mem _ (alookup_some_mem h)

theorem statGet_bumpStat_self (stats : List (String × Nat)) (k : String) :
    statGet (bumpStat stats k) k = statGet stats k + 1 := by
  simp [statGet, bumpStat, alookup_aupsert_self]

theorem statGet_bumpStat_ne (stats : List (String × Nat)) (k k' : String) (h : k' ≠ k) :
    statGet (bumpStat stats k) k' = statGet stats k' := by
  simp [statGet, bumpStat, alookup_aupsert_ne _ _ _ _ h]

/-- A successful Get-and-update applies `upd` to the previous child
state (creating it from `init` when absent). -/
theorem containerGetUpd_childValue {α : Type} (init : α) (upd : α → α)
    (cont : List (ByteStr × MetricVec α)) (registry : List ByteStr)
    (name : ByteStr) (labels : Labels) (c : List (ByteStr × MetricVec α))
    (reg : List ByteStr)
    (h : containerGetUpd init upd cont registry name labels = some (c, reg)) :
    childValue c name labels init = upd (childValue cont name labels init) := by
  rw [containerGetUpd] at h
  split at h
  next vec hv =>
    split at h
    next hs =>
      simp only [Option.some.injEq, Prod.mk.injEq] at h
      obtain ⟨hc, -⟩ := h
      subst hc
      simp [childValue, alookup_aupsert_self, hv]
    next hs => cases h
  next hv =>
    split at h
    next hr => cases h
    next hr =>
      simp only [Option.some.injEq, Prod.mk.injEq] at h
      obtain ⟨hc, -⟩ := h
      subst hc
      simp [childValue, alookup_aupsert_self, alookup, hv]

/-! ### C3: counter handling -/

/-- C3: for a counter event (reached with a non-drop mapping and a
resolvable metric name), a negative value updates no metric family, no
registry entry and no label-value record and bumps the
`illegal_negative_counter` stat exactly once; a nonnegative value whose
Get succeeds has the value added to the counter child. -/
theorem C3_counter_semantics (M : MapperModel) (now : Int) (st : ExporterState)
    (name : ByteStr) (v : ℚ) (labels : Labels)
    (mn : ByteStr) (pl : Labels) (present : Bool)
    (hact : (effectiveMapping M (.counter name v labels)).Action ≠ .actDrop)
    (hres : resolveTarget M (.counter name v labels) = some (mn, pl, present)) :
    (v < 0 →
      ∃ st', handleEvent M now st (.counter name v labels) = some st' ∧
        st'.counters = st.counters ∧ st'.gauges = st.gauges ∧
        st'.summaries = st.summaries ∧ st'.histograms = st.histograms ∧
        st'.registry = st.registry ∧ st'.labelValues = st.labelValues ∧
        statGet st'.eventStats "illegal_negative_counter"
          = statGet st.eventStats "illegal_negative_counter" + 1 ∧
        (∀ k, k ≠ "illegal_negative_counter" →
          statGet st'.eventStats k = statGet st.eventStats k) ∧
        st'.conflictingEventStats = st.conflictingEventStats) ∧
    (0 ≤ v → ∀ c reg,
      containerGetUpd 0 (fun old => old + v) st.counters st.registry mn pl = some (c, reg) →
      ∃ st', handleEvent M now st (.counter name v labels) = some st' ∧
        st'.counters = c ∧
        childValue st'.counters mn pl 0 = childValue st.counters mn pl 0 + v) := by
  constructor
  · intro hneg
    cases present with
    | true =>
      refine ⟨{ st with eventStats := bumpStat st.eventStats "illegal_negative_counter" },
        ?_, rfl, rfl, rfl, rfl, rfl, rfl,
        statGet_bumpStat_self _ _, fun k hk => statGet_bumpStat_ne _ _ _ hk, rfl⟩
      rw [handleEvent, if_neg hact, hres]
      simp [hneg]
    | false =>
      refine ⟨{ st with
                  eventsUnmapped := st.eventsUnmapped + 1,
                  eventStats := bumpStat st.eventStats "illegal_negative_counter" },
        ?_, rfl, rfl, rfl, rfl, rfl, rfl,
        statGet_bumpStat_self _ _, fun k hk => statGet_bumpStat_ne _ _ _ hk, rfl⟩
      rw [handleEvent, if_neg hact, hres]
      simp [hneg]
  · intro hnn c reg hget
    have hv : ¬ v < 0 := not_lt.mpr hnn
    cases present with
    | true =>
      refine ⟨{ st with
                  counters := c,
                  registry := reg,
                  labelValues := saveLabelValues st.labelValues mn pl
                    (effectiveMapping M (Event.counter name v labels)).Ttl now,
                  eventStats := bumpStat st.eventStats "counter" },
        ?_, rfl, containerGetUpd_childValue _ _ _ _ _ _ _ _ hget⟩
      rw [handleEvent, if_neg hact, hres]
      simp [hv, hget]
    | false =>
      refine ⟨{ st with
                  eventsUnmapped := st.eventsUnmapped + 1,
                  counters := c,
                  registry := reg,
                  labelValues := saveLabelValues st.labelValues mn pl
                    (effectiveMapping M (Event.counter name v labels)).Ttl now,
                  eventStats := bumpStat st.eventStats "counter" },
        ?_, rfl, containerGetUpd_childValue _ _ _ _ _ _ _ _ hget⟩
      rw [handleEvent, if_neg hact, hres]
      simp [hv, hget]

/-- A mapper with no rules and zero defaults, for concrete witnesses. -/
def trivialMapper : MapperModel :=
  { getMapping := fun _ _ => (none, [], false),
    defaults := { Ttl := 0, TimerType := .timerDefault } }

def emptyExporterState : ExporterState :=
  { counters := [], gauges := [], summaries := [], histograms := [],
    registry := [], labelValues := [], eventStats := [],
    conflictingEventStats := [], eventsUnmapped := 0 }

/-- C3 witness: the counter events `a = −1` (rejected) and `a = 2`
(added) against the empty exporter. -/
theorem C3_counter_semantics_witness :
    ((-1 : ℚ) < 0 ∧
      ∃ st', handleEvent trivialMapper 0 emptyExporterState (.counter [97] (-1) []) = some st' ∧
        st'.counters = emptyExporterState.counters ∧
        st'.gauges = emptyExporterState.gauges ∧
        st'.summaries = emptyExporterState.summaries ∧
        st'.histograms = emptyExporterState.histograms ∧
        st'.registry = emptyExporterState.registry ∧
        st'.labelValues = emptyExporterState.labelValues ∧
        statGet st'.eventStats "illegal_negative_counter"
          = statGet emptyExporterState.eventStats "illegal_negative_counter" + 1 ∧
        (∀ k, k ≠ "illegal_negative_counter" →
          statGet st'.eventStats k = statGet emptyExporterState.eventStats k) ∧
        st'.conflictingEventStats = emptyExporterState.conflictingEventStats) ∧
    ((0 : ℚ) ≤ 2 ∧
      ∃ st', handleEvent trivialMapper 0 emptyExporterState (.counter [97] 2 []) = some st' ∧
        st'.counters = [([97], ⟨[], [([], 0 + 2)]⟩)] ∧
        childValue st'.counters [97] [] 0 = childValue emptyExporterState.counters [97] [] 0 + 2) := by
  have hres1 : resolveTarget trivialMapper (.counter [97] (-1) []) = some ([97], [], false) := by
    simp [resolveTarget, trivialMapper, effectiveMapping, evName, evLabels, evType,
      escapeMetricName_eq, replaceRunes_cons, replaceRunes_nil, runeStep, isLegalByte]
  have hres2 : resolveTarget trivialMapper (.counter [97] 2 []) = some ([97], [], false) := by
    simp [resolveTarget, trivialMapper, effectiveMapping, evName, evLabels, evType,
      escapeMetricName_eq, replaceRunes_cons, replaceRunes_nil, runeStep, isLegalByte]
  have hact1 : (effectiveMapping trivialMapper (.counter [97] (-1) [])).Action ≠ .actDrop := by
    simp [effectiveMapping, trivialMapper, evName, evType]
  have hact2 : (effectiveMapping trivialMapper (.counter [97] 2 [])).Action ≠ .actDrop := by
    simp [effectiveMapping, trivialMapper, evName, evType]
  have hget : containerGetUpd 0 (fun old => old + (2 : ℚ))
      emptyExporterState.counters emptyExporterState.registry [97] []
      = some ([([97], ⟨[], [([], 0 + 2)]⟩)], [[97]]) := by
    simp [containerGetUpd, emptyExporterState, alookup, aupsert, labelNames, canonLabels]
  constructor
  · exact ⟨by norm_num,
      (C3_counter_semantics trivialMapper 0 emptyExporterState [97] (-1) [] [97] [] false
        hact1 hres1).1 (by norm_num)⟩
  · refine ⟨by norm_num, ?_⟩
    obtain ⟨st', h1, h2, h3⟩ :=
      (C3_counter_semantics trivialMapper 0 emptyExporterState [97] 2 [] [97] [] false
        hact2 hres2).2 (by norm_num) [([97], ⟨[], [([], 0 + 2)]⟩)] [[97]] hget
    exact ⟨st', h1, by rw [h2], h3⟩

/-! ### C8: registration-conflict isolation -/

/-- The per-kind Get failure the event would hit in handleEvent. -/
def conflictFails (M : MapperModel) (st : ExporterState) :
    Event → ByteStr → Labels → Prop
  | .counter _ v _, mn, pl =>
    containerGetUpd 0 (fun old => old + v) st.counters st.registry mn pl = none
  | .gauge _ v rel _, mn, pl =>
    containerGetUpd 0 (fun old => if rel then old + v else v)
      st.gauges st.registry mn pl = none
  | ev@(.timer _ v _), mn, pl =>
    match resolvedTimerKind M ev with
    | .timerHistogram =>
      containerGetUpd ([] : List ℚ) (fun old => old ++ [v / 1000])
        st.histograms st.registry mn pl = none
    | _ =>
      containerGetUpd ([] : List ℚ) (fun old => old ++ [v / 1000])
        st.summaries st.registry mn pl = none

/-- C8: when the child lookup fails against an incompatible existing
registration, handleEvent bumps the per-type conflicting-event stat
exactly once, drops the observation, and leaves all four family
containers, the registry, the label-value records and the event stats
unchanged. -/
theorem C8_conflict_isolation (M : MapperModel) (now : Int) (st : ExporterState)
    (ev : Event) (mn : ByteStr) (pl : Labels) (present : Bool)
    (hact : (effectiveMapping M ev).Action ≠ .actDrop)
    (hres : resolveTarget M ev = some (mn, pl, present))
    (hnn : ∀ n v l, ev = .counter n v l → 0 ≤ v)
    (hfail : conflictFails M st ev mn pl) :
    ∃ st', handleEvent M now st ev = some st' ∧
      st'.counters = st.counters ∧ st'.gauges = st.gauges ∧
      st'.summaries = st.summaries ∧ st'.histograms = st.histograms ∧
      st'.registry = st.registry ∧ st'.labelValues = st.labelValues ∧
      st'.eventStats = st.eventStats ∧
      statGet st'.conflictingEventStats (typeLabel ev)
        = statGet st.conflictingEventStats (typeLabel ev) + 1 ∧
      ∀ k, k ≠ typeLabel ev →
        statGet st'.conflictingEventStats k = statGet st.conflictingEventStats k := by
  cases ev with
  | counter n v l =>
    have hv : ¬ v < 0 := not_lt.mpr (hnn n v l rfl)
    simp only [conflictFails] at hfail
    rw [handleEvent, if_neg hact, hres]
    cases present with
    | true =>
      refine ⟨{ st with
                  conflictingEventStats := bumpStat st.conflictingEventStats "counter" },
        ?_, rfl, rfl, rfl, rfl, rfl, rfl, rfl,
        statGet_bumpStat_self _ _, fun k hk => statGet_bumpStat_ne _ _ _ hk⟩
      simp [hv, hfail]
    | false =>
      refine ⟨{ st with
                  eventsUnmapped := st.eventsUnmapped + 1,
                  conflictingEventStats := bumpStat st.conflictingEventStats "counter" },
        ?_, rfl, rfl, rfl, rfl, rfl, rfl, rfl,
        statGet_bumpStat_self _ _, fun k hk => statGet_bumpStat_ne _ _ _ hk⟩
      simp [hv, hfail]
  | gauge n v rel l =>
    simp only [conflictFails] at hfail
    rw [handleEvent, if_neg hact, hres]
    cases present with
    | true =>
      refine ⟨{ st with
                  conflictingEventStats := bumpStat st.conflictingEventStats "gauge" },
        ?_, rfl, rfl, rfl, rfl, rfl, rfl, rfl,
        statGet_bumpStat_self _ _, fun k hk => statGet_bumpStat_ne _ _ _ hk⟩
      simp [hfail]
    | false =>
      refine ⟨{ st with
                  eventsUnmapped := st.eventsUnmapped + 1,
                  conflictingEventStats := bumpStat st.conflictingEventStats "gauge" },
        ?_, rfl, rfl, rfl, rfl, rfl, rfl, rfl,
        statGet_bumpStat_self _ _, fun k hk => statGet_bumpStat_ne _ _ _ hk⟩
      simp [hfail]
  | timer n v l =>
    simp only [conflictFails] at hfail
    rw [handleEvent, if_neg hact, hres]
    cases hk : resolvedTimerKind M (.timer n v l) with
    | timerHistogram =>
      rw [hk] at hfail
      simp only at hfail
      cases present with
      | true =>
        refine ⟨{ st with
                    conflictingEventStats := bumpStat st.conflictingEventStats "timer" },
          ?_, rfl, rfl, rfl, rfl, rfl, rfl, rfl,
          statGet_bumpStat_self _ _, fun k hkk => statGet_bumpStat_ne _ _ _ hkk⟩
        simp [hk, hfail]
      | false =>
        refine ⟨{ st with
                    eventsUnmapped := st.eventsUnmapped + 1,
                    conflictingEventStats := bumpStat st.conflictingEventStats "timer" },
          ?_, rfl, rfl, rfl, rfl, rfl, rfl, rfl,
          statGet_bumpStat_self _ _, fun k hkk => statGet_bumpStat_ne _ _ _ hkk⟩
        simp [hk, hfail]
    | timerDefault =>
      rw [hk] at hfail
      simp only at hfail
      cases present with
      | true =>
        refine ⟨{ st with
                    conflictingEventStats := bumpStat st.conflictingEventStats "timer" },
          ?_, rfl, rfl, rfl, rfl, rfl, rfl, rfl,
          statGet_bumpStat_self _ _, fun k hkk => statGet_bumpStat_ne _ _ _ hkk⟩
        simp [hk, hfail]
      | false =>
        refine ⟨{ st with
                    eventsUnmapped := st.eventsUnmapped + 1,
                    conflictingEventStats := bumpStat st.conflictingEventStats "timer" },
          ?_, rfl, rfl, rfl, rfl, rfl, rfl, rfl,
          statGet_bumpStat_self _ _, fun k hkk => statGet_bumpStat_ne _ _ _ hkk⟩
        simp [hk, hfail]
    | timerSummary =>
      rw [hk] at hfail
      simp only at hfail
      cases present with
      | true =>
        refine ⟨{ st with
                    conflictingEventStats := bumpStat st.conflictingEventStats "timer" },
          ?_, rfl, rfl, rfl, rfl, rfl, rfl, rfl,
          statGet_bumpStat_self _ _, fun k hkk => statGet_bumpStat_ne _ _ _ hkk⟩
        simp [hk, hfail]
      | false =>
        refine ⟨{ st with
                    eventsUnmapped := st.eventsUnmapped + 1,
                    conflictingEventStats := bumpStat st.conflictingEventStats "timer" },
          ?_, rfl, rfl, rfl, rfl, rfl, rfl, rfl,
          statGet_bumpStat_self _ _, fun k hkk => statGet_bumpStat_ne _ _ _ hkk⟩
        simp [hk, hfail]

/-- An exporter whose registered family `foo` carries a one-label
schema, conflicting with a label-less event of the same name. -/
def conflictState : ExporterState :=
  { emptyExporterState with
      counters := [([102, 111, 111], { schema := [[120]], children := [] })],
      registry := [[102, 111, 111]] }

/-- C8 witness: a label-less counter event against the conflicting
`foo` family of `conflictState`. -/
theorem C8_conflict_isolation_witness :
    conflictFails trivialMapper conflictState
      (.counter [102, 111, 111] 1 []) [102, 111, 111] [] ∧
    ∃ st', handleEvent trivialMapper 0 conflictState (.counter [102, 111, 111] 1 []) = some st' ∧
      st'.counters = conflictState.counters ∧ st'.gauges = conflictState.gauges ∧
      st'.summaries = conflictState.summaries ∧ st'.histograms = conflictState.histograms ∧
      st'.registry = conflictState.registry ∧ st'.labelValues = conflictState.labelValues ∧
      st'.eventStats = conflictState.eventStats ∧
      statGet st'.conflictingEventStats (typeLabel (.counter [102, 111, 111] 1 []))
        = statGet conflictState.conflictingEventStats
            (typeLabel (.counter [102, 111, 111] 1 [])) + 1 ∧
      ∀ k, k ≠ typeLabel (.counter [102, 111, 111] 1 []) →
        statGet st'.conflictingEventStats k
          = statGet conflictState.conflictingEventStats k := by
  have hfail : conflictFails trivialMapper conflictState
      (.counter [102, 111, 111] 1 []) [102, 111, 111] [] := by
    simp [conflictFails, containerGetUpd, conflictState, emptyExporterState,
      alookup, labelNames, canonLabels]
  have hres : resolveTarget trivialMapper (.counter [102, 111, 111] 1 [])
      = some ([102, 111, 111], [], false) := by
    simp [resolveTarget, trivialMapper, effectiveMapping, evName, evLabels, evType,
      escapeMetricName_eq, replaceRunes_cons, replaceRunes_nil, runeStep, isLegalByte]
  have hact : (effectiveMapping trivialMapper (.counter [102, 111, 111] 1 [])).Action
      ≠ .actDrop := by
    simp [effectiveMapping, trivialMapper, evName, evType]
  exact ⟨hfail,
    C8_conflict_isolation trivialMapper 0 conflictState (.counter [102, 111, 111] 1 [])
      [102, 111, 111] [] false hact hres
      (by intro n v l h; cases h; norm_num) hfail⟩

/-! ### C4: stale eviction -/

def lvFind (lv : List (ByteStr × List (Labels × LabelValues)))
    (name : ByteStr) (key : Labels) : Option LabelValues :=
  match alookup lv name with
  | none => none
  | some grp => alookup grp key

/-- The labelValues effect of one record step. -/
def lvStep (now : Int) (name : ByteStr)
    (lv : List (ByteStr × List (Labels × LabelValues)))
    (kr : Labels × LabelValues) : List (ByteStr × List (Labels × LabelValues)) :=
  if staleB now kr.2 = true then lvDelete lv name kr.1 else lv

def lvProcessGroup (now : Int) (name : ByteStr)
    (lv : List (ByteStr × List (Labels × LabelValues)))
    (krs : List (Labels × LabelValues)) : List (ByteStr × List (Labels × LabelValues)) :=
  krs.foldl (lvStep now name) lv

def lvProcess (now : Int) (lv : List (ByteStr × List (Labels × LabelValues)))
    (gs : List (ByteStr × List (Labels × LabelValues))) :
    List (ByteStr × List (Labels × LabelValues)) :=
  gs.foldl (fun acc g => lvProcessGroup now g.1 acc g.2) lv

/-- The per-container effect of one record step. -/
def contStep {α : Type} (now : Int) (name : ByteStr)
    (cont : List (ByteStr × MetricVec α)) (kr : Labels × LabelValues) :
    List (ByteStr × MetricVec α) :=
  if staleB now kr.2 = true then containerDelete cont name kr.2.labels else cont

def contProcessGroup {α : Type} (now : Int) (name : ByteStr)
    (cont : List (ByteStr × MetricVec α)) (krs : List (Labels × LabelValues)) :
    List (ByteStr × MetricVec α) :=
  krs.foldl (contStep now name) cont

def contProcess {α : Type} (now : Int) (cont : List (ByteStr × MetricVec α))
    (gs : List (ByteStr × List (Labels × LabelValues))) : List (ByteStr × MetricVec α) :=
  gs.foldl (fun acc g => contProcessGroup now g.1 acc g.2) cont

theorem removeStaleOne_fields (now : Int) (name : ByteStr) (st : ExporterState)
    (kr : Labels × LabelValues) :
    (removeStaleOne now name st kr).labelValues = lvStep now name st.labelValues kr ∧
    (removeStaleOne now name st kr).counters = contStep now name st.counters kr ∧
    (removeStaleOne now name st kr).gauges = contStep now name st.gauges kr ∧
    (removeStaleOne now name st kr).summaries = contStep now name st.summaries kr ∧
    (removeStaleOne now name st kr).histograms = contStep now name st.histograms kr := by
  rw [removeStaleOne]
  by_cases h0 : kr.2.ttl = 0
  · simp [h0, staleB, lvStep, contStep]
  · by_cases h1 : kr.2.lastRegisteredAt + kr.2.ttl < now
    · simp [h0, h1, staleB, lvStep, contStep]
    · simp [h0, h1, staleB, lvStep, contStep]

theorem removeStale_group_proj (now : Int) (name : ByteStr) :
    ∀ (krs : List (Labels × LabelValues)) (acc : ExporterState),
      (krs.foldl (removeStaleOne now name) acc).labelValues
        = lvProcessGroup now name acc.labelValues krs ∧
      (krs.foldl (removeStaleOne now name) acc).counters
        = contProcessGroup now name acc.counters krs ∧
      (krs.foldl (removeStaleOne now name) acc).gauges
        = contProcessGroup now name acc.gauges krs ∧
      (krs.foldl (removeStaleOne now name) acc).summaries
        = contProcessGroup now name acc.summaries krs ∧
      (krs.foldl (removeStaleOne now name) acc).histograms
        = contProcessGroup now name acc.histograms krs
  | [], acc => by simp [lvProcessGroup, contProcessGroup]
  | kr :: krs, acc => by
    obtain ⟨e1, e2, e3, e4, e5⟩ := removeStaleOne_fields now name acc kr
    obtain ⟨i1, i2, i3, i4, i5⟩ := removeStale_group_proj now name krs (removeStaleOne now name acc kr)
    refine ⟨?_, ?_, ?_, ?_, ?_⟩ <;>
      simp [List.foldl_cons, lvProcessGroup, contProcessGroup, i1, i2, i3, i4, i5,
        e1, e2, e3, e4, e5]

theorem removeStale_proj (now : Int) :
    ∀ (gs : List (ByteStr × List (Labels × LabelValues))) (acc : ExporterState),
      (gs.foldl (fun a e => e.2.foldl (removeStaleOne now e.1) a) acc).labelValues
        = lvProcess now acc.labelValues gs ∧
      (gs.foldl (fun a e => e.2.foldl (removeStaleOne now e.1) a) acc).counters
        = contProcess now acc.counters gs ∧
      (gs.foldl (fun a e => e.2.foldl (removeStaleOne now e.1) a) acc).gauges
        = contProcess now acc.gauges gs ∧
      (gs.foldl (fun a e => e.2.foldl (removeStaleOne now e.1) a) acc).summaries
        = contProcess now acc.summaries gs ∧
      (gs.foldl (fun a e => e.2.foldl (removeStaleOne now e.1) a) acc).histograms
        = contProcess now acc.histograms gs
  | [], acc => by simp [lvProcess, contProcess]
  | g :: gs, acc => by
    obtain ⟨e1, e2, e3, e4, e5⟩ := removeStale_group_proj now g.1 g.2 acc
    obtain ⟨i1, i2, i3, i4, i5⟩ :=
      removeStale_proj now gs (g.2.foldl (removeStaleOne now g.1) acc)
    refine ⟨?_, ?_, ?_, ?_, ?_⟩ <;>
      simp [List.foldl_cons, lvProcess, contProcess, i1, i2, i3, i4, i5,
        e1, e2, e3, e4, e5]

theorem lvFind_lvDelete (lv : List (ByteStr × List (Labels × LabelValues)))
    (name : ByteStr) (key : Labels) (n0 : ByteStr) (k0 : Labels) :
    lvFind (lvDelete lv name key) n0 k0 =
      if name = n0 ∧ key = k0 then none else lvFind lv n0 k0 := by
  rw [lvDelete]
  cases hl : alookup lv name with
  | none =>
    by_cases hc : name = n0 ∧ key = k0
    · obtain ⟨h1, h2⟩ := hc
      subst h1
      simp [lvFind, hl]
    · simp [hc]
  | some grp =>
    by_cases hn : name = n0
    · subst hn
      by_cases hk : key = k0
      · subst hk
        simp [lvFind, alookup_aupsert_self, alookup_aerase_self]
      · simp [lvFind, alookup_aupsert_self, alookup_aerase_ne _ _ _ (fun e => hk e.symm),
          hl, hk]
    · simp [lvFind, alookup_aupsert_ne _ _ _ _ (fun e => hn e.symm), hn]

theorem lvFind_processGroup (now : Int) (name : ByteStr) :
    ∀ (krs : List (Labels × LabelValues))
      (lv : List (ByteStr × List (Labels × LabelValues))) (n0 : ByteStr) (k0 : Labels),
      lvFind (lvProcessGroup now name lv krs) n0 k0 =
        if name = n0 ∧ ∃ kr ∈ krs, kr.1 = k0 ∧ staleB now kr.2 = true then none
        else lvFind lv n0 k0
  | [], lv, n0, k0 => by simp [lvProcessGroup]
  | kr :: krs, lv, n0, k0 => by
    rw [lvProcessGroup, List.foldl_cons,
      show List.foldl (lvStep now name) (lvStep now name lv kr) krs
        = lvProcessGroup now name (lvStep now name lv kr) krs from rfl,
      lvFind_processGroup now name krs]
    rw [lvStep]
    by_cases hs : staleB now kr.2 = true
    · rw [if_pos hs, lvFind_lvDelete]
      by_cases hrest : name = n0 ∧ ∃ x ∈ krs, x.1 = k0 ∧ staleB now x.2 = true
      · simp [hrest, hrest.1]
      · rw [if_neg hrest]
        by_cases hk : name = n0 ∧ kr.1 = k0
        · simp [hk, hk.1, hk.2, hs]
        · rw [if_neg hk]
          rw [if_neg ?_]
          intro ⟨h1, hex⟩
          rcases hex with ⟨x, hx, hxk, hxs⟩
          rcases List.mem_cons.mp hx with hx | hx
          · exact hk ⟨h1, by rw [hx] at hxk; exact hxk⟩
          · exact hrest ⟨h1, ⟨x, hx, hxk, hxs⟩⟩
    · rw [if_neg hs]
      by_cases hrest : name = n0 ∧ ∃ x ∈ krs, x.1 = k0 ∧ staleB now x.2 = true
      · have hall : name = n0 ∧ ∃ x ∈ kr :: krs, x.1 = k0 ∧ staleB now x.2 = true := by
          rcases hrest with ⟨h1, x, hx, hxk, hxs⟩
          exact ⟨h1, x, List.mem_cons_of_mem kr hx, hxk, hxs⟩
        rw [if_pos hrest, if_pos hall]
      · rw [if_neg hrest, if_neg ?_]
        intro ⟨h1, hex⟩
        rcases hex with ⟨x, hx, hxk, hxs⟩
        rcases List.mem_cons.mp hx with hx | hx
        · rw [hx] at hxs
          exact hs hxs
        · exact hrest ⟨h1, ⟨x, hx, hxk, hxs⟩⟩

theorem lvFind_process (now : Int) :
    ∀ (gs : List (ByteStr × List (Labels × LabelValues)))
      (lv : List (ByteStr × List (Labels × LabelValues))) (n0 : ByteStr) (k0 : Labels),
      lvFind (lvProcess now lv gs) n0 k0 =
        if ∃ g ∈ gs, g.1 = n0 ∧ ∃ kr ∈ g.2, kr.1 = k0 ∧ staleB now kr.2 = true then none
        else lvFind lv n0 k0
  | [], lv, n0, k0 => by simp [lvProcess]
  | g :: gs, lv, n0, k0 => by
    rw [lvProcess, List.foldl_cons,
      show List.foldl (fun acc g => lvProcessGroup now g.1 acc g.2)
          (lvProcessGroup now g.1 lv g.2) gs
        = lvProcess now (lvProcessGroup now g.1 lv g.2) gs from rfl,
      lvFind_process now gs, lvFind_processGroup now g.1 g.2]
    by_cases hrest : ∃ x ∈ gs, x.1 = n0 ∧ ∃ kr ∈ x.2, kr.1 = k0 ∧ staleB now kr.2 = true
    · have hall : ∃ x ∈ g :: gs, x.1 = n0 ∧ ∃ kr ∈ x.2, kr.1 = k0 ∧ staleB now kr.2 = true := by
        rcases hrest with ⟨x, hx, hxs⟩
        exact ⟨x, List.mem_cons_of_mem g hx, hxs⟩
      rw [if_pos hrest, if_pos hall]
    · rw [if_neg hrest]
      by_cases hg : g.1 = n0 ∧ ∃ kr ∈ g.2, kr.1 = k0 ∧ staleB now kr.2 = true
      · rw [if_pos hg, if_pos ⟨g, List.mem_cons_self g gs, hg⟩]
      · rw [if_neg hg, if_neg ?_]
        intro ⟨x, hx, hxs⟩
        rcases List.mem_cons.mp hx with hx | hx
        · exact hg (hx ▸ hxs)
        · exact hrest ⟨x, hx, hxs⟩

/-- Wellformedness of a container: distinct family names, and every
child keyed by labels whose names equal the family schema (which the
Get path guarantees). -/
def WfCont {α : Type} (cont : List (ByteStr × MetricVec α)) : Prop :=
  (cont.map Prod.fst).Nodup ∧
  ∀ nv ∈ cont, ∀ ch ∈ nv.2.children, ch.1.map Prod.fst = nv.2.schema

/-- Wellformedness of an exporter state (Go maps have distinct keys). -/
def WfState (st : ExporterState) : Prop :=
  (st.labelValues.map Prod.fst).Nodup ∧
  (∀ g ∈ st.labelValues, (g.2.map Prod.fst).Nodup) ∧
  WfCont st.counters ∧ WfCont st.gauges ∧ WfCont st.summaries ∧ WfCont st.histograms

theorem alookup_of_mem_nodup {α β : Type} [DecidableEq α] :
    ∀ {l : List (α × β)} {k : α} {v : β},
      (l.map Prod.fst).Nodup → (k, v) ∈ l → alookup l k = some v
  | [], k, v, _, hm => by simp at hm
  | (a, b) :: rest, k, v, hnd, hm => by
    rcases List.mem_cons.mp hm with hm | hm
    · cases hm
      simp [alookup]
    · have ha : a ≠ k := by
        intro e
        subst e
        have : a ∈ rest.map Prod.fst := List.mem_map.mpr ⟨(a, v), hm, rfl⟩
        exact (List.nodup_cons.mp hnd).1 this
      simp only [alookup, if_neg ha]
      exact alookup_of_mem_nodup (List.nodup_cons.mp hnd).2 hm

theorem alookup_aerase_none {α β : Type} [DecidableEq α]
    (l : List (α × β)) (k k' : α) (h : alookup l k' = none) :
    alookup (aerase l k) k' = none := by
  by_cases hk : k' = k
  · subst hk
    exact alookup_aerase_self l k'
  · rw [alookup_aerase_ne l k k' hk]
    exact h

theorem aupsert_map_fst_of_lookup {α β : Type} [DecidableEq α] :
    ∀ {l : List (α × β)} {k : α} (v : β), (alookup l k).isSome →
      (aupsert l k v).map Prod.fst = l.map Prod.fst
  | [], k, v, h => by simp [alookup] at h
  | (a, b) :: rest, k, v, h => by
    by_cases ha : a = k
    · subst ha
      simp [aupsert]
    · rw [alookup, if_neg ha] at h
      simp [aupsert, ha, aupsert_map_fst_of_lookup v h]

theorem mem_aupsert {α β : Type} [DecidableEq α] :
    ∀ {l : List (α × β)} {k : α} {v : β} {x : α × β},
      x ∈ aupsert l k v → x = (k, v) ∨ x ∈ l
  | [], k, v, x, h => by
    simp [aupsert] at h
    exact Or.inl h
  | (a, b) :: rest, k, v, x, h => by
    by_cases ha : a = k
    · subst ha
      rw [aupsert, if_pos rfl] at h
      rcases List.mem_cons.mp h with h | h
      · exact Or.inl h
      · exact Or.inr (List.mem_cons_of_mem _ h)
    · rw [aupsert, if_neg ha] at h
      rcases List.mem_cons.mp h with h | h
      · exact Or.inr (h ▸ List.mem_cons_self _ _)
      · rcases mem_aupsert h with h | h
        · exact Or.inl h
        · exact Or.inr (List.mem_cons_of_mem _ h)

/-- Deleting by a record's labels empties the child at the canonical
key, given wellformedness (a schema mismatch means no such child
existed). -/
theorem containerDelete_kills {α : Type} (cont : List (ByteStr × MetricVec α))
    (name : ByteStr) (labels : Labels) (hwf : WfCont cont) :
    childLookup (containerDelete cont name labels) name (canonLabels labels) = none := by
  rw [containerDelete]
  split
  next hl => simp [childLookup, hl]
  next vec hl =>
    by_cases hs : labelNames labels = vec.schema
    · rw [if_pos hs]
      simp [childLookup, alookup_aupsert_self, alookup_aerase_self]
    · rw [if_neg hs]
      rw [childLookup, hl]
      cases hc : alookup vec.children (canonLabels labels) with
      | none => exact hc
      | some x =>
        have hmem := alookup_some_mem hc
        have := hwf.2 (name, vec) (alookup_some_mem hl) _ hmem
        exact absurd this hs

/-- containerDelete never creates a child. -/
theorem containerDelete_none {α : Type} (cont : List (ByteStr × MetricVec α))
    (name : ByteStr) (labels : Labels) (n0 : ByteStr) (k0 : Labels)
    (h : childLookup cont n0 k0 = none) :
    childLookup (containerDelete cont name labels) n0 k0 = none := by
  rw [containerDelete]
  split
  next hl => exact h
  next vec hl =>
    by_cases hs : labelNames labels = vec.schema
    · rw [if_pos hs]
      by_cases hn : name = n0
      · subst hn
        rw [childLookup] at h
        rw [hl] at h
        rw [childLookup, alookup_aupsert_self]
        exact alookup_aerase_none _ _ _ h
      · rw [childLookup, alookup_aupsert_ne _ _ _ _ (fun e => hn e.symm)]
        rw [childLookup] at h
        exact h
    · rw [if_neg hs]
      exact h

/-- containerDelete preserves wellformedness. -/
theorem containerDelete_wf {α : Type} (cont : List (ByteStr × MetricVec α))
    (name : ByteStr) (labels : Labels) (hwf : WfCont cont) :
    WfCont (containerDelete cont name labels) := by
  rw [containerDelete]
  split
  next hl => exact hwf
  next vec hl =>
    by_cases hs : labelNames labels = vec.schema
    · rw [if_pos hs]
      constructor
      · rw [aupsert_map_fst_of_lookup _ (by rw [hl]; rfl)]
        exact hwf.1
      · intro nv hnv ch hch
        rcases mem_aupsert hnv with hnv | hnv
        · subst hnv
          have hch' : ch ∈ vec.children := List.mem_filter.mp hch |>.1
          exact hwf.2 (name, vec) (alookup_some_mem hl) ch hch'
        · exact hwf.2 nv hnv ch hch
    · rw [if_neg hs]
      exact hwf

theorem contStep_wf {α : Type} (now : Int) (name : ByteStr)
    (cont : List (ByteStr × MetricVec α)) (kr : Labels × LabelValues)
    (hwf : WfCont cont) : WfCont (contStep now name cont kr) := by
  rw [contStep]
  split
  · exact containerDelete_wf _ _ _ hwf
  · exact hwf

theorem contStep_none {α : Type} (now : Int) (name : ByteStr)
    (cont : List (ByteStr × MetricVec α)) (kr : Labels × LabelValues)
    (n0 : ByteStr) (k0 : Labels) (h : childLookup cont n0 k0 = none) :
    childLookup (contStep now name cont kr) n0 k0 = none := by
  rw [contStep]
  split
  · exact containerDelete_none _ _ _ _ _ h
  · exact h

theorem contProcessGroup_wf {α : Type} (now : Int) (name : ByteStr) :
    ∀ (krs : List (Labels × LabelValues)) (cont : List (ByteStr × MetricVec α)),
      WfCont cont → WfCont (contProcessGroup now name cont krs)
  | [], _, h => h
  | kr :: krs, cont, h =>
    contProcessGroup_wf now name krs _ (contStep_wf now name cont kr h)

theorem contProcessGroup_none {α : Type} (now : Int) (name : ByteStr) :
    ∀ (krs : List (Labels × LabelValues)) (cont : List (ByteStr × MetricVec α))
      (n0 : ByteStr) (k0 : Labels), childLookup cont n0 k0 = none →
      childLookup (contProcessGroup now name cont krs) n0 k0 = none
  | [], _, _, _, h => h
  | kr :: krs, cont, n0, k0, h =>
    contProcessGroup_none now name krs _ n0 k0 (contStep_none now name cont kr n0 k0 h)

theorem contProcessGroup_kills {α : Type} (now : Int) (name : ByteStr) :
    ∀ (krs : List (Labels × LabelValues)) (cont : List (ByteStr × MetricVec α))
      (kr : Labels × LabelValues), WfCont cont → kr ∈ krs → staleB now kr.2 = true →
      childLookup (contProcessGroup now name cont krs) name (canonLabels kr.2.labels) = none
  | [], _, _, _, hm, _ => absurd hm (List.not_mem_nil _)
  | kr0 :: krs, cont, kr, hwf, hm, hst => by
    rcases List.mem_cons.mp hm with hm | hm
    · subst hm
      have h1 : childLookup (contStep now name cont kr) name (canonLabels kr.2.labels) = none := by
        rw [contStep, if_pos hst]
        exact containerDelete_kills cont name kr.2.labels hwf
      exact contProcessGroup_none now name krs _ _ _ h1
    · exact contProcessGroup_kills now name krs _ kr (contStep_wf now name cont kr0 hwf) hm hst

theorem contProcess_wf {α : Type} (now : Int) :
    ∀ (gs : List (ByteStr × List (Labels × LabelValues)))
      (cont : List (ByteStr × MetricVec α)),
      WfCont cont → WfCont (contProcess now cont gs)
  | [], _, h => h
  | g :: gs, cont, h =>
    contProcess_wf now gs _ (contProcessGroup_wf now g.1 g.2 cont h)

theorem contProcess_none {α : Type} (now : Int) :
    ∀ (gs : List (ByteStr × List (Labels × LabelValues)))
      (cont : List (ByteStr × MetricVec α)) (n0 : ByteStr) (k0 : Labels),
      childLookup cont n0 k0 = none →
      childLookup (contProcess now cont gs) n0 k0 = none
  | [], _, _, _, h => h
  | g :: gs, cont, n0, k0, h =>
    contProcess_none now gs _ n0 k0 (contProcessGroup_none now g.1 g.2 cont n0 k0 h)

theorem contProcess_kills {α : Type} (now : Int) :
    ∀ (gs : List (ByteStr × List (Labels × LabelValues)))
      (cont : List (ByteStr × MetricVec α))
      (g : ByteStr × List (Labels × LabelValues)) (kr : Labels × LabelValues),
      WfCont cont → g ∈ gs → kr ∈ g.2 → staleB now kr.2 = true →
      childLookup (contProcess now cont gs) g.1 (canonLabels kr.2.labels) = none
  | [], _, _, _, _, hm, _, _ => absurd hm (List.not_mem_nil _)
  | g0 :: gs, cont, g, kr, hwf, hm, hkr, hst => by
    rcases List.mem_cons.mp hm with hm | hm
    · subst hm
      exact contProcess_none now gs _ _ _
        (contProcessGroup_kills now g.1 g.2 cont kr hwf hkr hst)
    · exact contProcess_kills now gs _ g kr
        (contProcessGroup_wf now g0.1 g0.2 cont hwf) hm hkr hst

/-- C4 (amended): on a stale-metrics tick, `removeStaleMetrics` deletes
exactly those label-value records whose ttl is NONZERO and whose last
update time plus ttl is before now — Go durations are signed, so a
record with negative ttl is also evicted — deleting the corresponding
child from all four family containers; a record with ttl equal to zero
is never deleted. -/
theorem C4_stale_eviction (now : Int) (st : ExporterState) (hwf : WfState st) :
    (∀ n0 k0,
      lvLookup (removeStaleMetrics now st) n0 k0 =
        match lvLookup st n0 k0 with
        | some r => if staleB now r = true then none else some r
        | none => none) ∧
    (∀ g ∈ st.labelValues, ∀ kr ∈ g.2, staleB now kr.2 = true →
      childLookup (removeStaleMetrics now st).counters g.1 (canonLabels kr.2.labels) = none ∧
      childLookup (removeStaleMetrics now st).gauges g.1 (canonLabels kr.2.labels) = none ∧
      childLookup (removeStaleMetrics now st).summaries g.1 (canonLabels kr.2.labels) = none ∧
      childLookup (removeStaleMetrics now st).histograms g.1 (canonLabels kr.2.labels) = none) := by
  obtain ⟨hnd, hgnd, hwc, hwg, hws, hwh⟩ := hwf
  obtain ⟨plv0, pc0, pg0, ps0, ph0⟩ := removeStale_proj now st.labelValues st
  have plv : (removeStaleMetrics now st).labelValues
      = lvProcess now st.labelValues st.labelValues := plv0
  have pc : (removeStaleMetrics now st).counters
      = contProcess now st.counters st.labelValues := pc0
  have pg : (removeStaleMetrics now st).gauges
      = contProcess now st.gauges st.labelValues := pg0
  have ps : (removeStaleMetrics now st).summaries
      = contProcess now st.summaries st.labelValues := ps0
  have ph : (removeStaleMetrics now st).histograms
      = contProcess now st.histograms st.labelValues := ph0
  constructor
  · intro n0 k0
    have e2 : lvLookup (removeStaleMetrics now st) n0 k0
        = lvFind (lvProcess now st.labelValues st.labelValues) n0 k0 := by
      rw [show lvLookup (removeStaleMetrics now st) n0 k0
          = lvFind (removeStaleMetrics now st).labelValues n0 k0 from rfl, plv]
    rw [e2, lvFind_process,
      show lvLookup st n0 k0 = lvFind st.labelValues n0 k0 from rfl]
    cases halv : alookup st.labelValues n0 with
    | none =>
      simp only [lvFind, halv]
      split <;> rfl
    | some grp =>
      simp only [lvFind, halv]
      cases hgk : alookup grp k0 with
      | none => split <;> rfl
      | some r =>
        by_cases hstale : staleB now r = true
        · have hP : ∃ g ∈ st.labelValues, g.1 = n0 ∧
              ∃ kr ∈ g.2, kr.1 = k0 ∧ staleB now kr.2 = true :=
            ⟨(n0, grp), alookup_some_mem halv, rfl,
              ⟨(k0, r), alookup_some_mem hgk, rfl, hstale⟩⟩
          rw [if_pos hP]
          simp [hstale]
        · have hnP : ¬ ∃ g ∈ st.labelValues, g.1 = n0 ∧
              ∃ kr ∈ g.2, kr.1 = k0 ∧ staleB now kr.2 = true := by
            rintro ⟨⟨gn, grecs⟩, hg, hg1, ⟨krk, krr⟩, hkr, hkrk, hkrs⟩
            simp only at hg1 hkrk
            have h1 : alookup st.labelValues n0 = some grecs := by
              rw [← hg1]
              exact alookup_of_mem_nodup hnd hg
            rw [halv] at h1
            injection h1 with h1
            have h2 : alookup grecs k0 = some krr := by
              rw [← hkrk]
              exact alookup_of_mem_nodup (hgnd (gn, grecs) hg) hkr
            rw [← h1, hgk] at h2
            injection h2 with h2
            rw [← h2] at hkrs
            exact hstale hkrs
          rw [if_neg hnP]
          simp [hstale]
  · intro g hg kr hkr hkrs
    refine ⟨?_, ?_, ?_, ?_⟩
    · rw [show (removeStaleMetrics now st).counters
          = contProcess now st.counters st.labelValues from pc]
      exact contProcess_kills now st.labelValues st.counters g kr hwc hg hkr hkrs
    · rw [show (removeStaleMetrics now st).gauges
          = contProcess now st.gauges st.labelValues from pg]
      exact contProcess_kills now st.labelValues st.gauges g kr hwg hg hkr hkrs
    · rw [show (removeStaleMetrics now st).summaries
          = contProcess now st.summaries st.labelValues from ps]
      exact contProcess_kills now st.labelValues st.summaries g kr hws hg hkr hkrs
    · rw [show (removeStaleMetrics now st).histograms
          = contProcess now st.histograms st.labelValues from ph]
      exact contProcess_kills now st.labelValues st.histograms g kr hwh hg hkr hkrs

/-- An exporter holding one label-value record with ttl = −1 under the
metric name `n`. -/
def negTtlState : ExporterState :=
  { emptyExporterState with
      labelValues := [([110], [([], { lastRegisteredAt := 0, labels := [], ttl := -1 })])] }

/-- C4 counterexample: a record whose ttl is −1 — not strictly positive
— is nevertheless deleted by the stale sweep (Go durations are signed
and `lastRegisteredAt + ttl < now` holds), contradicting the claim that
exactly the records with strictly positive ttl and expired window are
deleted. -/
theorem C4_negative_ttl_cx :
    ¬ (0 : Int) < (-1 : Int) ∧
    lvLookup negTtlState [110] []
      = some { lastRegisteredAt := 0, labels := [], ttl := -1 } ∧
    lvLookup (removeStaleMetrics 100 negTtlState) [110] [] = none := by decide

/-- C4 witness: the eviction characterization at `negTtlState`. -/
theorem C4_stale_eviction_witness :
    WfState negTtlState ∧
    ((∀ n0 k0,
      lvLookup (removeStaleMetrics 100 negTtlState) n0 k0 =
        match lvLookup negTtlState n0 k0 with
        | some r => if staleB 100 r = true then none else some r
        | none => none) ∧
    (∀ g ∈ negTtlState.labelValues, ∀ kr ∈ g.2, staleB 100 kr.2 = true →
      childLookup (removeStaleMetrics 100 negTtlState).counters g.1 (canonLabels kr.2.labels) = none ∧
      childLookup (removeStaleMetrics 100 negTtlState).gauges g.1 (canonLabels kr.2.labels) = none ∧
      childLookup (removeStaleMetrics 100 negTtlState).summaries g.1 (canonLabels kr.2.labels) = none ∧
      childLookup (removeStaleMetrics 100 negTtlState).histograms g.1 (canonLabels kr.2.labels) = none)) :=
  ⟨by unfold WfState WfCont; decide, C4_stale_eviction 100 negTtlState (by unfold WfState WfCont; decide)⟩
